import Mathlib

/-! ODROID-SHOW `example/mandelbrot.c`: model and verified properties.

A shallow embedding of `plot_point`, `mandelbrot` and the part of `main` behind
the option loop, from `src/example/mandelbrot.c`.

* Bytes of the serial stream are natural numbers (`Byte`), C `int`s are `Int`
  (loop counters that only count up from zero are `Nat`).
* The serial device is a finite list of `WriteResult`s: the value each
  successive `write(2)` call returns.  A run that needs a further response
  when the list is used up ends as `Outcome.blocked`.
* `float` arithmetic is taken as exact and modelled over `ℚ`.
* `exit`, a failed `assert` and an array access outside the declared
  dimensions end a run with the corresponding `Outcome`.
-/

namespace OdroidShow

/-! ## Data model -/

/-- One byte of the serial stream. -/
abbrev Byte := Nat

/-- The value returned by one `write(2)` call: a byte count, or `-1` with `errno`. -/
inductive WriteResult
  | wrote (n : Nat)
  | failed (errno : Nat)
  deriving DecidableEq, Repr

/-- The `errno` value of a transient "try again" failure. -/
def EAGAIN : Nat := 11

/-- How a run of a C function ends. -/
inductive Outcome
  | returned
  | exited (status : Nat)
  | aborted
  | fault
  | blocked
  deriving DecidableEq, Repr

/-- The system calls of `plot_point`, in program order. -/
inductive Event
  | write (offset count : Int) (res : WriteResult)
  | usleep (usec : Int)
  deriving DecidableEq, Repr

/-- Result of running `plot_point` against a list of device responses. -/
structure Run where
  outcome : Outcome
  trace : List Event
  wire : List Byte
  rest : List WriteResult
  deriving DecidableEq, Repr

/-! ## `snprintf` with the conversions `%c` and `%d` -/

/-- Decimal digits of a natural number, most significant first, as ASCII bytes. -/
def decDigits (n : Nat) : List Byte :=
  if n < 10 then [48 + n] else decDigits (n / 10) ++ [48 + n % 10]
termination_by n
decreasing_by omega

/-- The conversion `%d`: an optional minus sign and the decimal digits. -/
def fmtDec (n : Int) : List Byte :=
  if n < 0 then 45 :: decDigits (-n).toNat else decDigits n.toNat

/-- Expansion of a format string: `%c` (37, 99) writes its argument converted to
`unsigned char`, `%d` (37, 100) writes its argument in decimal, any other byte is
copied. -/
def formatBytes : List Byte → List Int → List Byte
  | [], _ => []
  | 37 :: 99 :: fmt, a :: args => (a % 256).toNat :: formatBytes fmt args
  | 37 :: 100 :: fmt, a :: args => fmtDec a ++ formatBytes fmt args
  | b :: fmt, args => b :: formatBytes fmt args

/-- The call `snprintf(buf, size, fmt, ...)`: the buffer holds at most `size - 1`
bytes of the expansion followed by a NUL; the return value is the length of the
whole expansion. -/
def snprintf (size : Nat) (fmt : List Byte) (args : List Int) : List Byte × Int :=
  let out := formatBytes fmt args
  (out.take (size - 1) ++ [0], (out.length : Int))

/-- The format string `"\e[3%cm\e[%d;%dX"` of `plot_point`. -/
def plot_fmt : List Byte :=
  [27, 91, 51, 37, 99, 109, 27, 91, 37, 100, 59, 37, 100, 88]

/-! ## `plot_point` -/

/-- The first statement of `plot_point`: the buffer and `buf_in_use`. -/
def stage (colour : Byte) (x y : Int) : List Byte × Int :=
  snprintf 256 plot_fmt [(colour : Int), x, y]

/-- The `do ... while (buf_in_use)` loop of `plot_point`, one iteration per
device response. -/
def write_loop (usleep_time : Int) (buf : List Byte) :
    Int → Int → List WriteResult → Run
  | _, _, [] => ⟨Outcome.blocked, [], [], []⟩
  | offset, buf_in_use, r :: rs =>
    let evs := [Event.write offset buf_in_use r, Event.usleep usleep_time]
    match r with
    | WriteResult.failed errno =>
      if errno = EAGAIN then
        if buf_in_use ≠ 0 then
          let k := write_loop usleep_time buf offset buf_in_use rs
          ⟨k.outcome, evs ++ k.trace, k.wire, k.rest⟩
        else ⟨Outcome.returned, evs, [], rs⟩
      else ⟨Outcome.exited 3, evs, [], rs⟩
    | WriteResult.wrote n =>
      let sent := (buf.drop offset.toNat).take n
      let buf_in_use' := buf_in_use - (n : Int)
      let offset' := offset + (n : Int)
      if buf_in_use' ≠ 0 then
        let k := write_loop usleep_time buf offset' buf_in_use' rs
        ⟨k.outcome, evs ++ k.trace, sent ++ k.wire, k.rest⟩
      else ⟨Outcome.returned, evs, sent, rs⟩

/-- The function `plot_point(fd, colour, x, y)`; the descriptor is represented by
the responses `rs` of the device behind it. -/
def plot_point (usleep_time : Int) (colour : Byte) (x y : Int)
    (rs : List WriteResult) : Run :=
  let buf := (stage colour x y).1
  let buf_in_use := (stage colour x y).2
  if buf_in_use ≥ 256 then ⟨Outcome.exited 2, [], [], rs⟩
  else write_loop usleep_time buf 0 buf_in_use rs

/-! ## Specification-side notions -/

/-- Signed decimal representation without padding, as printed by `toString`. -/
def dec (n : Int) : List Byte := (toString n).toList.map Char.toNat

/-- The frame for colour `c` at `(x, y)`:
`ESC [ 3 c m ESC [ dec(x) ; dec(y) X`. -/
def frame (c : Byte) (x y : Int) : List Byte :=
  [27, 91, 51, c, 109, 27, 91] ++ dec x ++ [59] ++ dec y ++ [88]

/-- Range of a 32-bit signed `int`. -/
def isInt32 (n : Int) : Prop := -2147483648 ≤ n ∧ n ≤ 2147483647

instance (n : Int) : Decidable (isInt32 n) := by unfold isInt32; infer_instance

/-- Total number of bytes accepted by a list of responses: the sum of the
success counts. -/
def accepted : List WriteResult → Nat
  | [] => 0
  | WriteResult.wrote n :: rs => n + accepted rs
  | WriteResult.failed _ :: rs => accepted rs

/-- A response that is a success (short or full) or a transient `EAGAIN` failure. -/
def retryable (r : WriteResult) : Prop :=
  r = WriteResult.failed EAGAIN ∨ ∃ n, r = WriteResult.wrote n

instance (r : WriteResult) : Decidable (retryable r) :=
  match r with
  | WriteResult.wrote n => isTrue (Or.inr ⟨n, rfl⟩)
  | WriteResult.failed e =>
    if h : e = EAGAIN then isTrue (Or.inl (by rw [h]))
    else isFalse (by
      rintro (h1 | ⟨n, h1⟩)
      · exact h (WriteResult.failed.inj h1)
      · cases h1)

/-- The write attempts expected for a frame of `len` bytes and responses `rs`:
attempt `i` asks for the bytes from the offset accepted so far up to the end of
the frame and is followed by one delay. -/
def attempts (u : Int) (len : Nat) (rs : List WriteResult) (m : Nat) : List Event :=
  (List.range m).flatMap fun i =>
    [Event.write (accepted (rs.take i)) ((len : Int) - (accepted (rs.take i) : Int))
      (rs.getD i (WriteResult.wrote 0)), Event.usleep u]

/-! ## Auxiliary definitions for the write loop -/

/-- Prepend the events and bytes of earlier iterations to a run. -/
def Run.after (evs : List Event) (bytes : List Byte) (k : Run) : Run :=
  ⟨k.outcome, evs ++ k.trace, bytes ++ k.wire, k.rest⟩

/-- Bytes taken from the buffer by the successes of `rs`, starting at offset `a`. -/
def wireOf (buf : List Byte) : Nat → List WriteResult → List Byte
  | _, [] => []
  | a, WriteResult.wrote n :: rs => (buf.drop a).take n ++ wireOf buf (a + n) rs
  | a, WriteResult.failed _ :: rs => wireOf buf a rs

/-- Events of the iterations answered by `rs`, starting at offset `a`. -/
def eventsOf (u : Int) (len : Nat) : Nat → List WriteResult → List Event
  | _, [] => []
  | a, WriteResult.wrote n :: rs =>
    Event.write a ((len : Int) - a) (WriteResult.wrote n) :: Event.usleep u
      :: eventsOf u len (a + n) rs
  | a, WriteResult.failed e :: rs =>
    Event.write a ((len : Int) - a) (WriteResult.failed e) :: Event.usleep u
      :: eventsOf u len a rs

/-! ## Globals of `mandelbrot.c` -/

/-- Screen width `COLS`. -/
def COLS : Nat := 320

/-- Screen height `ROWS`. -/
def ROWS : Nat := 240

/-- The palette `text_palette`: `'1'` to `'7'`, then the background `'0'`. -/
def text_palette : List Byte := [49, 50, 51, 52, 53, 54, 55, 48]

/-- Enumerator `COLOUR_NA` of `colouring_method`. -/
def COLOUR_NA : Int := 0

/-- Enumerator `COLOUR_SCALED` of `colouring_method`. -/
def COLOUR_SCALED : Int := 1

/-- Enumerator `COLOUR_MOD` of `colouring_method`. -/
def COLOUR_MOD : Int := 2

/-- Enumerator `COLOUR_TEST` of `colouring_method`. -/
def COLOUR_TEST : Int := 3

/-- Enumerator `COLOUR_SENTINEL` of `colouring_method`. -/
def COLOUR_SENTINEL : Int := 4

/-- A two-dimensional `float` array declared as `[ROWS][COLS]`. -/
abbrev Store := Nat → Nat → ℚ

/-- The assignment `a[i][j] = v` with the indices checked against the declared
dimensions `[ROWS][COLS]`. -/
def Store.set (a : Store) (i j : Nat) (v : ℚ) : Option Store :=
  if i < ROWS ∧ j < COLS then
    some (fun i' j' => if i' = i ∧ j' = j then v else a i' j')
  else none

/-- The mutable globals read by `plot_point` and `mandelbrot`. -/
structure Globals where
  usleep_time : Int
  x_left : ℚ
  x_right : ℚ
  y_bottom : ℚ
  y_top : ℚ
  real_val : Store
  imag_val : Store

/-- The globals as initialised in the source: delay 1200, window
`(-2.5, 1.0, -1.0, 1.0)`, zeroed backing store. -/
def defaults : Globals :=
  ⟨1200, -5 / 2, 1, -1, 1, fun _ _ => 0, fun _ _ => 0⟩

/-! ## `mandelbrot` -/

/-- What a render pass did to the device: how it ended, the `plot_point` calls
`(colour, x, y)` in order, the system calls, the bytes the device accepted and
the responses left over. -/
structure Render where
  outcome : Outcome
  calls : List (Byte × Int × Int)
  trace : List Event
  wire : List Byte
  rest : List WriteResult
  deriving DecidableEq, Repr

/-- Result of `mandelbrot`: the rendering and the backing store afterwards. -/
structure Pass where
  render : Render
  real_val : Store
  imag_val : Store

/-- The `while (x*x + y*y < 4.0 && iter < maxiter)` loop; the result is `iter`. -/
def escape_loop (x0 y0 : ℚ) (maxiter : Int) (x y : ℚ) (iter : Nat) : Nat :=
  if x * x + y * y < 4 ∧ (iter : Int) < maxiter then
    let temp := x * x - y * y + x0
    let y' := 2 * x * y + y0
    escape_loop x0 y0 maxiter temp y' (iter + 1)
  else iter
termination_by (maxiter - (iter : Int)).toNat
decreasing_by omega

/-- The initialiser of `scale_factor`. -/
def scale_factor (palette_size maxiter : Int) : ℚ :=
  ((palette_size - 2 : Int) : ℚ) / (maxiter : ℚ)

/-- The palette index chosen by `switch (painter)`; `default:` exits with
status 2 and a failed `assert` aborts. -/
def pick_index (painter maxiter : Int) (iter i j : Nat) : Except Outcome Int :=
  let palette_size : Int := (text_palette.length : Int)
  if painter = COLOUR_MOD then
    Except.ok (if (iter : Int) ≥ maxiter then palette_size - 1
      else Int.tmod (iter : Int) (palette_size - 1))
  else if painter = COLOUR_SCALED then
    if (iter : Int) ≥ maxiter then Except.ok (palette_size - 1)
    else
      let cindex : Int := ⌊(1 / 2 : ℚ) + (iter : ℚ) * scale_factor palette_size maxiter⌋
      if cindex < palette_size - 1 then Except.ok cindex else Except.error Outcome.aborted
  else if painter = COLOUR_TEST then
    Except.ok (Int.tmod ((i : Int) + (j : Int)) (palette_size - 1))
  else Except.error (Outcome.exited 2)

/-- The read `text_palette[idx]`, checked against the size of the array. -/
def palette_at (idx : Int) : Except Outcome Byte :=
  if 0 ≤ idx then
    match text_palette[idx.toNat]? with
    | some c => Except.ok c
    | none => Except.error Outcome.fault
  else Except.error Outcome.fault

/-- The value of `colour` after `switch (painter)`. -/
def pick_colour (painter maxiter : Int) (iter i j : Nat) : Except Outcome Byte :=
  match pick_index painter maxiter iter i j with
  | Except.ok idx => palette_at idx
  | Except.error o => Except.error o

/-- Put one `plot_point` call in front of the rest of a rendering. -/
def Render.after (call : Byte × Int × Int) (run : Run) (k : Render) : Render :=
  ⟨k.outcome, call :: k.calls, run.trace ++ k.trace, run.wire ++ k.wire, k.rest⟩

/-- Put a finished column in front of the rest of a rendering. -/
def Render.andThen (col k : Render) : Render :=
  ⟨k.outcome, col.calls ++ k.calls, col.trace ++ k.trace, col.wire ++ k.wire, k.rest⟩

/-- The inner loop `for (y0 = y_bottom, j = 0; j < ROWS; ++j, y0 += y_delta)` of
the rendering branch, entered at `j`, `y0`. -/
def rows_loop (g : Globals) (maxiter painter : Int) (y_delta x0 : ℚ) (i : Nat)
    (j : Nat) (y0 : ℚ) (rs : List WriteResult) : Render :=
  if j < ROWS then
    let iter := escape_loop x0 y0 maxiter 0 0 0
    match pick_colour painter maxiter iter i j with
    | Except.error o => ⟨o, [], [], [], rs⟩
    | Except.ok colour =>
      let run := plot_point g.usleep_time colour (i : Int) (j : Int) rs
      if run.outcome = Outcome.returned then
        Render.after (colour, (i : Int), (j : Int)) run
          (rows_loop g maxiter painter y_delta x0 i (j + 1) (y0 + y_delta) run.rest)
      else ⟨run.outcome, [(colour, (i : Int), (j : Int))], run.trace, run.wire, run.rest⟩
  else ⟨Outcome.returned, [], [], [], rs⟩
termination_by ROWS - j
decreasing_by omega

/-- The outer loop `for (x0 = x_left, i = 0; i < COLS; ++i, x0 += x_delta)` of the
rendering branch, entered at `i`, `x0`. -/
def cols_loop (g : Globals) (maxiter painter : Int) (x_delta y_delta : ℚ)
    (i : Nat) (x0 : ℚ) (rs : List WriteResult) : Render :=
  if i < COLS then
    let col := rows_loop g maxiter painter y_delta x0 i 0 g.y_bottom rs
    if col.outcome = Outcome.returned then
      Render.andThen col
        (cols_loop g maxiter painter x_delta y_delta (i + 1) (x0 + x_delta) col.rest)
    else col
  else ⟨Outcome.returned, [], [], [], rs⟩
termination_by COLS - i
decreasing_by omega

/-- The inner loop `for (j = 0; j < ROWS; ++j)` of the `iteratively` branch: it
assigns `real_val[i][j]` and `imag_val[i][j]`. -/
def zero_rows (i : Nat) (j : Nat) (real_val imag_val : Store) :
    Outcome × Store × Store :=
  if j < ROWS then
    match Store.set real_val i j 0 with
    | none => (Outcome.fault, real_val, imag_val)
    | some rv =>
      match Store.set imag_val i j 0 with
      | none => (Outcome.fault, rv, imag_val)
      | some iv => zero_rows i (j + 1) rv iv
  else (Outcome.returned, real_val, imag_val)
termination_by ROWS - j
decreasing_by omega

/-- The outer loop `for (i = 0; i < COLS; ++i)` of the `iteratively` branch. -/
def zero_cols (i : Nat) (real_val imag_val : Store) : Outcome × Store × Store :=
  if i < COLS then
    match zero_rows i 0 real_val imag_val with
    | (Outcome.returned, rv, iv) => zero_cols (i + 1) rv iv
    | stopped => stopped
  else (Outcome.returned, real_val, imag_val)
termination_by COLS - i
decreasing_by omega

/-- The function `mandelbrot(fd, maxiter, painter, iteratively)`; the descriptor is
represented by the responses `rs` of the device behind it. -/
def mandelbrot (g : Globals) (maxiter painter iteratively : Int)
    (rs : List WriteResult) : Pass :=
  let x_delta := (g.x_right - g.x_left) / (COLS : ℚ)
  let y_delta := (g.y_top - g.y_bottom) / (ROWS : ℚ)
  if iteratively ≠ 0 then
    let z := zero_cols 0 g.real_val g.imag_val
    ⟨⟨z.1, [], [], [], rs⟩, z.2.1, z.2.2⟩
  else
    ⟨cols_loop g maxiter painter x_delta y_delta 0 g.x_left rs, g.real_val, g.imag_val⟩

/-! ## Specification-side notions for the fractal engine -/

/-- The orbit `z_0 = 0`, `z_(k+1) = z_k ^ 2 + c` of `c = x0 + i y0`, in real and
imaginary parts. -/
def orbit (x0 y0 : ℚ) : Nat → ℚ × ℚ
  | 0 => (0, 0)
  | k + 1 =>
    ((orbit x0 y0 k).1 * (orbit x0 y0 k).1 - (orbit x0 y0 k).2 * (orbit x0 y0 k).2 + x0,
      2 * (orbit x0 y0 k).1 * (orbit x0 y0 k).2 + y0)

/-- The squared modulus `|z|^2`. -/
def normSq (z : ℚ × ℚ) : ℚ := z.1 * z.1 + z.2 * z.2

/-- The responses `seg` deliver a frame of `len` bytes: successes and `EAGAIN`
failures only, whose success counts reach `len` exactly at the last response. -/
def covers (len : Nat) (seg : List WriteResult) : Prop :=
  (∀ r ∈ seg, retryable r) ∧ accepted seg = len
    ∧ ∀ k, k < seg.length → accepted (seg.take k) < len

/-- The coordinates `(x, y)` of a `plot_point` call. -/
def coords (call : Byte × Int × Int) : Int × Int := (call.2.1, call.2.2)

/-- The cells of the grid in the order column by column, each column from row 0
upwards: `(0,0), (0,1), ..., (0,239), (1,0), ..., (319,239)`. -/
def grid_cells : List (Int × Int) :=
  (List.range COLS).flatMap fun (i : Nat) =>
    (List.range ROWS).map fun (j : Nat) => ((i : Int), (j : Int))

/-- The responses of a whole pass when the device answers the writes of cell
`(i, j)` with `resp i j`. -/
def pass_responses (resp : Nat → Nat → List WriteResult) : List WriteResult :=
  (List.range COLS).flatMap fun i => (List.range ROWS).flatMap fun j => resp i j

/-! ## Loop variables of the rendering loops -/

/-- Value of a loop variable that is initialised with `start` and advanced by
`+= delta` at the end of every round, after `n` rounds: `x0` in the outer loop
(`start = x_left`), `y0` in the inner loop (`start = y_bottom`). -/
def advanced (start delta : ℚ) : Nat → ℚ
  | 0 => start
  | n + 1 => advanced start delta n + delta

/-- The values `(x0, y0)` of the loop variables of `mandelbrot` in round `i` of the
outer and round `j` of the inner loop. -/
def loop_point (g : Globals) (i j : Nat) : ℚ × ℚ :=
  (advanced g.x_left ((g.x_right - g.x_left) / (COLS : ℚ)) i,
    advanced g.y_bottom ((g.y_top - g.y_bottom) / (ROWS : ℚ)) j)

/-- The byte passed to `plot_point` for a cell whose loop variables are `x0`, `y0`
(0 when the switch does not yield a colour). -/
def plotted (painter maxiter : Int) (x0 y0 : ℚ) (i j : Nat) : Byte :=
  match pick_colour painter maxiter (escape_loop x0 y0 maxiter 0 0 0) i j with
  | Except.ok c => c
  | Except.error _ => 0

/-! ## `main` after option parsing -/

/-- A system call made by `main` itself. -/
inductive Syscall
  | write (data : List Byte) (res : WriteResult)
  | usleep (usec : Int)
  deriving DecidableEq, Repr

/-- Result of `main`: how the process ends, the system calls of `main` itself in
order, and the rendering done by `mandelbrot` when it is reached. -/
structure MainRun where
  outcome : Outcome
  startup : List Syscall
  render : Option Render

/-- The string literal `" \e0r"` with its terminating NUL. -/
def reset_literal : List Byte := [32, 27, 48, 114, 0]

/-- The string literal `"\e[2J\0"` with its terminating NUL. -/
def clear_literal : List Byte := [27, 91, 50, 74, 0, 0]

/-- The function `main` from the call of `open_serial` on.  The option loop is
represented by its results `iterative`, `painter`, `max_iter` and the value of
`usleep_time` in `g`; `fd` is the value returned by `open_serial`; `rs` are the
responses of the device to the successive `write` calls. -/
def main (g : Globals) (iterative painter max_iter : Int) (fd : Int)
    (rs : List WriteResult) : MainRun :=
  if fd < 0 then ⟨Outcome.exited 1, [], none⟩
  else
    match rs with
    | [] => ⟨Outcome.blocked, [], none⟩
    | r1 :: [] =>
      ⟨Outcome.blocked, [Syscall.write (reset_literal.take 4) r1, Syscall.usleep 500000], none⟩
    | r1 :: r2 :: rest =>
      let pass := mandelbrot g max_iter painter iterative rest
      ⟨pass.render.outcome,
        [Syscall.write (reset_literal.take 4) r1, Syscall.usleep 500000,
          Syscall.write (clear_literal.take 4) r2, Syscall.usleep 500000],
        some pass.render⟩

/-! ## Specification-side notions for traces and the pixel mapping -/

/-- A trace event that is a `write` attempt. -/
def Event.isWrite : Event → Bool
  | Event.write _ _ _ => true
  | Event.usleep _ => false

/-- A trace event that is a delay. -/
def Event.isDelay : Event → Bool
  | Event.write _ _ _ => false
  | Event.usleep _ => true

/-- The affine map of the data model: cell `(i, j)` goes to
`(left + i * dx, bottom + j * dy)` with `dx = (right - left) / W`,
`dy = (top - bottom) / H`. -/
def cell_point (g : Globals) (i j : Nat) : ℚ × ℚ :=
  (g.x_left + (i : ℚ) * ((g.x_right - g.x_left) / 320),
    g.y_bottom + (j : ℚ) * ((g.y_top - g.y_bottom) / 240))

/-- The inverse affine map: from a point back to (rational) cell indices. -/
def cell_of_point (g : Globals) (p : ℚ × ℚ) : ℚ × ℚ :=
  ((p.1 - g.x_left) / ((g.x_right - g.x_left) / 320),
    (p.2 - g.y_bottom) / ((g.y_top - g.y_bottom) / 240))

/-! ## Lemmas on decimal formatting -/

theorem digitChar_toNat (d : Nat) (h : d < 10) : (Nat.digitChar d).toNat = 48 + d := by
  interval_cases d <;> rfl

theorem toDigitsCore_bytes (fuel : Nat) : ∀ (n : Nat) (acc : List Char), n < fuel →
    (Nat.toDigitsCore 10 fuel n acc).map Char.toNat = decDigits n ++ acc.map Char.toNat := by
  induction fuel with
  | zero => intro n acc h; omega
  | succ f ih =>
    intro n acc h
    rw [decDigits]
    simp only [Nat.toDigitsCore]
    by_cases h10 : n < 10
    · have h0 : n / 10 = 0 := by omega
      have hm : n % 10 = n := by omega
      simp [h0, h10, hm, digitChar_toNat n h10]
    · have h0 : n / 10 ≠ 0 := by omega
      have hlt : n / 10 < f := by omega
      simp only [h0, if_false, h10]
      rw [ih (n / 10) _ hlt]
      simp [digitChar_toNat (n % 10) (by omega)]

theorem dec_natCast (m : Nat) : dec (m : Int) = decDigits m := by
  have h := toDigitsCore_bytes (m + 1) m [] (by omega)
  simpa [dec, toString, Nat.repr, Nat.toDigits] using h

theorem fmtDec_eq_dec (n : Int) : fmtDec n = dec n := by
  cases n with
  | ofNat m =>
    have hn : ¬ ((Int.ofNat m) < 0) := by simp
    simp only [fmtDec, hn, if_false]
    simpa using (dec_natCast m).symm
  | negSucc m =>
    have hn : (Int.negSucc m) < 0 := Int.negSucc_lt_zero m
    simp only [fmtDec, hn, if_true]
    have h := toDigitsCore_bytes (m + 1 + 1) (m + 1) [] (by omega)
    simp [dec, toString, Nat.repr, Nat.toDigits, Int.neg_negSucc] at h ⊢
    exact h.symm

theorem decDigits_length_le (e : Nat) : ∀ n : Nat, n < 10 ^ (e + 1) →
    (decDigits n).length ≤ e + 1 := by
  induction e with
  | zero =>
    intro n h
    rw [decDigits]
    have h10 : n < 10 := by simpa using h
    simp [h10]
  | succ e ih =>
    intro n h
    rw [decDigits]
    by_cases h10 : n < 10
    · simp [h10]
    · have hlt : n / 10 < 10 ^ (e + 1) := by
        rw [Nat.div_lt_iff_lt_mul (by norm_num)]
        calc n < 10 ^ (e + 1 + 1) := h
          _ = 10 ^ (e + 1) * 10 := by ring
      have := ih (n / 10) hlt
      simp [h10]
      omega

theorem decDigits_length_pos (n : Nat) : 0 < (decDigits n).length := by
  rw [decDigits]
  by_cases h10 : n < 10 <;> simp [h10]

theorem fmtDec_length_le (n : Int) (h : isInt32 n) : (fmtDec n).length ≤ 11 := by
  obtain ⟨h1, h2⟩ := h
  unfold fmtDec
  by_cases hn : n < 0
  · have := decDigits_length_le 9 (-n).toNat (by norm_num; omega)
    simp [hn]
    omega
  · have := decDigits_length_le 9 n.toNat (by norm_num; omega)
    simp [hn]
    omega

theorem formatBytes_plot (c x y : Int) :
    formatBytes plot_fmt [c, x, y]
      = [27, 91, 51, (c % 256).toNat, 109, 27, 91] ++ fmtDec x ++ [59] ++ fmtDec y ++ [88] := by
  simp [formatBytes, plot_fmt]

theorem formatBytes_plot_eq_frame (c : Nat) (x y : Int) (hc : c < 256) :
    formatBytes plot_fmt [(c : Int), x, y] = frame c x y := by
  have hmod : ((c : Int) % 256).toNat = c := by omega
  rw [formatBytes_plot, hmod, fmtDec_eq_dec, fmtDec_eq_dec, frame]

theorem frame_length_le (c : Nat) (x y : Int) (hx : isInt32 x) (hy : isInt32 y) :
    (frame c x y).length ≤ 31 := by
  have h1 := fmtDec_length_le x hx
  have h2 := fmtDec_length_le y hy
  rw [fmtDec_eq_dec] at h1 h2
  simp [frame]
  omega

theorem frame_length_pos (c : Nat) (x y : Int) : 0 < (frame c x y).length := by
  simp [frame]

theorem stage_eq (c : Nat) (x y : Int) (hc : c < 256) (hx : isInt32 x) (hy : isInt32 y) :
    stage c x y = (frame c x y ++ [0], ((frame c x y).length : Int)) := by
  have hlen := frame_length_le c x y hx hy
  simp only [stage, snprintf, formatBytes_plot_eq_frame c x y hc]
  rw [List.take_of_length_le (by omega)]

/-! ## Lemmas on the write loop -/

theorem accepted_append (xs ys : List WriteResult) :
    accepted (xs ++ ys) = accepted xs + accepted ys := by
  induction xs with
  | nil => simp [accepted]
  | cons r xs ih =>
    cases r with
    | wrote n => simp [accepted, ih]; omega
    | failed e => simp [accepted, ih]

theorem accepted_take_le (rs : List WriteResult) (k : Nat) :
    accepted (rs.take k) ≤ accepted rs := by
  have h := accepted_append (rs.take k) (rs.drop k)
  rw [List.take_append_drop] at h
  omega

theorem eventsOf_eq_range (u : Int) (len : Nat) : ∀ (rs : List WriteResult) (a : Nat),
    eventsOf u len a rs = (List.range rs.length).flatMap fun i =>
      [Event.write ((a + accepted (rs.take i) : Nat) : Int)
          ((len : Int) - ((a + accepted (rs.take i) : Nat) : Int))
          (rs.getD i (WriteResult.wrote 0)), Event.usleep u] := by
  intro rs
  induction rs with
  | nil => intro a; simp [eventsOf]
  | cons r rs ih =>
    intro a
    rw [List.length_cons, List.range_succ_eq_map, List.flatMap_cons, List.flatMap_map]
    cases r with
    | wrote n =>
      simp only [eventsOf, ih (a + n)]
      simp [accepted, Nat.add_assoc]
    | failed e =>
      simp only [eventsOf, ih a]
      simp [accepted]

theorem attempts_append (u : Int) (len : Nat) (pre suf : List WriteResult) (m : Nat)
    (hm : m ≤ pre.length) : attempts u len (pre ++ suf) m = attempts u len pre m := by
  unfold attempts
  apply List.flatMap_congr
  intro i hi
  have hi' : i < m := List.mem_range.mp hi
  have h1 : (pre ++ suf).take i = pre.take i :=
    List.take_append_of_le_length (by omega)
  have h2 : (pre ++ suf).getD i (WriteResult.wrote 0) = pre.getD i (WriteResult.wrote 0) := by
    simp [List.getD_eq_getElem?_getD, List.getElem?_append_left (show i < pre.length by omega)]
  rw [h1, h2]

/-- While the responses in `pre` keep the loop running, the loop behaves on
`pre ++ suf` as on `suf` from the advanced offset. -/
theorem write_loop_append (u : Int) (buf : List Byte) (len : Nat) (suf : List WriteResult) :
    ∀ (pre : List WriteResult) (a : Nat),
      (∀ r ∈ pre, retryable r) →
      (∀ k, 1 ≤ k → k ≤ pre.length → a + accepted (pre.take k) ≠ len) →
      write_loop u buf a ((len : Int) - a) (pre ++ suf)
        = Run.after (eventsOf u len a pre) (wireOf buf a pre)
            (write_loop u buf ((a + accepted pre : Nat) : Int)
              ((len : Int) - ((a + accepted pre : Nat) : Int)) suf) := by
  intro pre
  induction pre with
  | nil =>
    intro a _ _
    simp [eventsOf, wireOf, accepted, Run.after]
  | cons r pre ih =>
    intro a hret hne
    have hret' : ∀ r' ∈ pre, retryable r' := fun r' h => hret r' (List.mem_cons_of_mem _ h)
    cases r with
    | wrote n =>
      have h1 := hne 1 (by omega) (by simp)
      simp only [List.take_succ_cons, List.take_zero, accepted, Nat.add_zero] at h1
      have hcont : (len : Int) - (a : Int) - (n : Int) ≠ 0 := by omega
      have hne' : ∀ k, 1 ≤ k → k ≤ pre.length → (a + n) + accepted (pre.take k) ≠ len := by
        intro k hk1 hk2
        have := hne (k + 1) (by omega) (by simp; omega)
        simpa [accepted, Nat.add_assoc] using this
      have hrec := ih (a + n) hret' hne'
      have e1 : (a : Int) + (n : Int) = ((a + n : Nat) : Int) := by push_cast; ring
      have e2 : (len : Int) - (a : Int) - (n : Int) = (len : Int) - ((a + n : Nat) : Int) := by
        push_cast; ring
      simp only [List.cons_append, write_loop, hcont, ne_eq, not_false_eq_true, if_true,
        Int.toNat_ofNat]
      have happ : pre.append suf = pre ++ suf := rfl
      rw [e1, e2, happ, hrec]
      simp [Run.after, eventsOf, wireOf, accepted, Nat.add_assoc]
    | failed e =>
      have he : e = EAGAIN := by
        rcases hret (WriteResult.failed e) (List.mem_cons_self _ _) with h | ⟨n, h⟩
        · exact WriteResult.failed.inj h
        · cases h
      have h1 := hne 1 (by omega) (by simp)
      simp only [List.take_succ_cons, List.take_zero, accepted, Nat.add_zero] at h1
      have hcont : (len : Int) - (a : Int) ≠ 0 := by omega
      have hne' : ∀ k, 1 ≤ k → k ≤ pre.length → a + accepted (pre.take k) ≠ len := by
        intro k hk1 hk2
        have := hne (k + 1) (by omega) (by simp; omega)
        simpa [accepted] using this
      have hrec := ih a hret' hne'
      simp only [List.cons_append, write_loop, he, hcont, ne_eq, not_false_eq_true, if_true]
      have happ : pre.append suf = pre ++ suf := rfl
      rw [happ, hrec]
      simp [Run.after, eventsOf, wireOf, accepted]

theorem wireOf_frame (fr tl : List Byte) : ∀ (rs : List WriteResult) (a : Nat),
    a + accepted rs ≤ fr.length →
    wireOf (fr ++ tl) a rs = (fr.drop a).take (accepted rs) := by
  intro rs
  induction rs with
  | nil => intro a _; simp [wireOf, accepted]
  | cons r rs ih =>
    intro a h
    cases r with
    | wrote n =>
      simp only [accepted] at h
      have hrec := ih (a + n) (by omega)
      simp only [wireOf, accepted, hrec]
      rw [List.drop_append_of_le_length (by omega),
        List.take_append_of_le_length (by simp; omega)]
      rw [← List.drop_drop, List.take_add]
    | failed e =>
      simp only [accepted] at h
      simp only [wireOf, accepted, ih a h]

theorem eventsOf_append (u : Int) (len : Nat) (suf : List WriteResult) :
    ∀ (pre : List WriteResult) (a : Nat),
      eventsOf u len a (pre ++ suf)
        = eventsOf u len a pre ++ eventsOf u len (a + accepted pre) suf := by
  intro pre
  induction pre with
  | nil => intro a; simp [eventsOf, accepted]
  | cons r pre ih =>
    intro a
    cases r with
    | wrote n => simp [eventsOf, accepted, ih, Nat.add_assoc]
    | failed e => simp [eventsOf, accepted, ih]

theorem wireOf_append (buf : List Byte) (suf : List WriteResult) :
    ∀ (pre : List WriteResult) (a : Nat),
      wireOf buf a (pre ++ suf) = wireOf buf a pre ++ wireOf buf (a + accepted pre) suf := by
  intro pre
  induction pre with
  | nil => intro a; simp [wireOf, accepted]
  | cons r pre ih =>
    intro a
    cases r with
    | wrote n => simp [wireOf, accepted, ih, Nat.add_assoc]
    | failed e => simp [wireOf, accepted, ih]

theorem eventsOf_eq_attempts (u : Int) (len : Nat) (rs : List WriteResult) :
    eventsOf u len 0 rs = attempts u len rs rs.length := by
  rw [eventsOf_eq_range]
  simp [attempts]

/-- A response list that covers the frame exactly at its last response makes the
loop return after consuming all of it; later responses stay untouched. -/
theorem write_loop_covering (u : Int) (fr tl : List Byte) (rs post : List WriteResult)
    (hpos : 0 < fr.length)
    (hret : ∀ r ∈ rs, retryable r)
    (hsum : accepted rs = fr.length)
    (hlast : ∀ k, k < rs.length → accepted (rs.take k) < fr.length) :
    write_loop u (fr ++ tl) 0 (fr.length : Int) (rs ++ post)
      = ⟨Outcome.returned, attempts u fr.length rs rs.length, fr, post⟩ := by
  rcases List.eq_nil_or_concat rs with hnil | ⟨pre, last, hcat⟩
  · rw [hnil] at hsum
    simp [accepted] at hsum
    omega
  · have hrs : rs = pre ++ [last] := by rw [hcat, List.concat_eq_append]
    have hpre_ret : ∀ r ∈ pre, retryable r := fun r h => hret r (by rw [hrs]; simp [h])
    have htake : ∀ k, k ≤ pre.length → rs.take k = pre.take k := by
      intro k hk
      rw [hrs]
      exact List.take_append_of_le_length hk
    have hlen : rs.length = pre.length + 1 := by rw [hrs]; simp
    have hpre_ne : ∀ k, 1 ≤ k → k ≤ pre.length → 0 + accepted (pre.take k) ≠ fr.length := by
      intro k _ hk
      have := hlast k (by omega)
      rw [htake k hk] at this
      omega
    have hpre_lt : accepted pre < fr.length := by
      have := hlast pre.length (by omega)
      rw [htake _ (le_refl _), List.take_length] at this
      exact this
    have hsum' : accepted pre + accepted [last] = fr.length := by
      rw [← accepted_append, ← hrs]; exact hsum
    have happ := write_loop_append u (fr ++ tl) fr.length (last :: post) pre 0 hpre_ret hpre_ne
    simp only [Nat.cast_zero, sub_zero, Nat.zero_add] at happ
    have hev := eventsOf_eq_attempts u fr.length rs
    have hw := wireOf_frame fr tl rs 0 (by omega)
    rw [hsum] at hw
    simp only [List.drop_zero, List.take_length] at hw
    rw [hrs, eventsOf_append, Nat.zero_add] at hev
    rw [hrs, wireOf_append, Nat.zero_add] at hw
    rw [← hrs] at hev
    have h0 : write_loop u (fr ++ tl) 0 (fr.length : Int) (rs ++ post)
        = Run.after (eventsOf u fr.length 0 pre) (wireOf (fr ++ tl) 0 pre)
            (write_loop u (fr ++ tl) ((accepted pre : Nat) : Int)
              ((fr.length : Int) - ((accepted pre : Nat) : Int)) (last :: post)) := by
      rw [hrs, List.append_assoc]; exact happ
    have hfin : Run.after (eventsOf u fr.length 0 pre) (wireOf (fr ++ tl) 0 pre)
          (write_loop u (fr ++ tl) ((accepted pre : Nat) : Int)
            ((fr.length : Int) - ((accepted pre : Nat) : Int)) (last :: post))
        = ⟨Outcome.returned,
            eventsOf u fr.length 0 pre ++ eventsOf u fr.length (accepted pre) [last],
            wireOf (fr ++ tl) 0 pre ++ wireOf (fr ++ tl) (accepted pre) [last], post⟩ := by
      cases last with
      | failed e =>
        simp [accepted] at hsum'
        omega
      | wrote n =>
        simp only [accepted, Nat.add_zero] at hsum'
        have hz : (fr.length : Int) - (accepted pre : Int) - (n : Int) = 0 := by omega
        simp [write_loop, Run.after, eventsOf, wireOf, hz]
    rw [h0, hfin, hev, hw]

/-- A failure other than `EAGAIN`, met while the loop is still running, ends the
run with status 3 and leaves the later responses untouched. -/
theorem write_loop_fatal (u : Int) (buf : List Byte) (len : Nat)
    (pre post : List WriteResult) (e : Nat) (he : e ≠ EAGAIN)
    (hret : ∀ r ∈ pre, retryable r)
    (hne : ∀ k, 1 ≤ k → k ≤ pre.length → accepted (pre.take k) ≠ len) :
    write_loop u buf 0 (len : Int) (pre ++ WriteResult.failed e :: post)
      = ⟨Outcome.exited 3,
          attempts u len (pre ++ WriteResult.failed e :: post) (pre.length + 1),
          wireOf buf 0 pre, post⟩ := by
  have hne' : ∀ k, 1 ≤ k → k ≤ pre.length → 0 + accepted (pre.take k) ≠ len := by
    intro k h1 h2
    rw [Nat.zero_add]
    exact hne k h1 h2
  have happ := write_loop_append u buf len (WriteResult.failed e :: post) pre 0 hret hne'
  simp only [Nat.cast_zero, sub_zero, Nat.zero_add] at happ
  have hatt : attempts u len (pre ++ WriteResult.failed e :: post) (pre.length + 1)
      = eventsOf u len 0 (pre ++ [WriteResult.failed e]) := by
    rw [eventsOf_eq_attempts]
    have h := attempts_append u len (pre ++ [WriteResult.failed e]) post (pre.length + 1)
      (by simp)
    simpa using h
  rw [happ, hatt, eventsOf_append]
  simp [write_loop, Run.after, eventsOf, he]


theorem frame_length_colour (c c' : Nat) (x y : Int) :
    (frame c x y).length = (frame c' x y).length := by
  simp [frame]

/-- A covering response list in front of `post`: `plot_point` returns, has sent
the frame and leaves `post`. -/
theorem plot_point_covering (u : Int) (c : Nat) (x y : Int) (seg post : List WriteResult)
    (hc : c < 256) (hx : isInt32 x) (hy : isInt32 y)
    (hcov : covers (frame c x y).length seg) :
    plot_point u c x y (seg ++ post)
      = ⟨Outcome.returned, attempts u (frame c x y).length seg seg.length,
          frame c x y, post⟩ := by
  have hs := stage_eq c x y hc hx hy
  have hlen := frame_length_le c x y hx hy
  have hnot : ¬ (((frame c x y).length : Int) ≥ 256) := by omega
  have hrun := write_loop_covering u (frame c x y) [0] seg post (frame_length_pos c x y)
    hcov.1 hcov.2.1 hcov.2.2
  simp only [plot_point, hs, hnot, if_false]
  exact hrun

/-! ## Further lemmas on `plot_point` -/

/-- The write loop ends by returning, by exit status 3, or blocked on the device. -/
theorem write_loop_outcome (u : Int) (buf : List Byte) : ∀ (rs : List WriteResult)
    (offset buf_in_use : Int),
    (write_loop u buf offset buf_in_use rs).outcome = Outcome.returned
      ∨ (write_loop u buf offset buf_in_use rs).outcome = Outcome.exited 3
      ∨ (write_loop u buf offset buf_in_use rs).outcome = Outcome.blocked := by
  intro rs
  induction rs with
  | nil => intro offset buf_in_use; simp [write_loop]
  | cons r rs ih =>
    intro offset buf_in_use
    cases r with
    | wrote n =>
      simp only [write_loop]
      split
      · exact ih _ _
      · simp
    | failed e =>
      simp only [write_loop]
      split
      · split
        · exact ih _ _
        · simp
      · simp

/-- Every write attempt of the loop is followed at once by one delay of
`usleep_time`: the trace is a sequence of pairs (write, delay). -/
theorem write_loop_paced (u : Int) (buf : List Byte) : ∀ (rs : List WriteResult)
    (offset buf_in_use : Int),
    ∃ ws : List (Int × Int × WriteResult),
      (write_loop u buf offset buf_in_use rs).trace
        = ws.flatMap fun w => [Event.write w.1 w.2.1 w.2.2, Event.usleep u] := by
  intro rs
  induction rs with
  | nil => intro offset buf_in_use; exact ⟨[], by simp [write_loop]⟩
  | cons r rs ih =>
    intro offset buf_in_use
    cases r with
    | wrote n =>
      simp only [write_loop]
      split
      · obtain ⟨ws, hws⟩ := ih (offset + (n : Int)) (buf_in_use - (n : Int))
        exact ⟨(offset, buf_in_use, WriteResult.wrote n) :: ws, by simp [hws]⟩
      · exact ⟨[(offset, buf_in_use, WriteResult.wrote n)], by simp⟩
    | failed e =>
      simp only [write_loop]
      split
      · split
        · obtain ⟨ws, hws⟩ := ih offset buf_in_use
          exact ⟨(offset, buf_in_use, WriteResult.failed e) :: ws, by simp [hws]⟩
        · exact ⟨[(offset, buf_in_use, WriteResult.failed e)], by simp⟩
      · exact ⟨[(offset, buf_in_use, WriteResult.failed e)], by simp⟩

/-- In a sequence of pairs (write, delay) there are as many delays as writes. -/
theorem paced_counts (u : Int) (ws : List (Int × Int × WriteResult)) :
    ((ws.flatMap fun w => [Event.write w.1 w.2.1 w.2.2, Event.usleep u]).filter
        Event.isWrite).length = ws.length
      ∧ ((ws.flatMap fun w => [Event.write w.1 w.2.1 w.2.2, Event.usleep u]).filter
        Event.isDelay).length = ws.length := by
  induction ws with
  | nil => simp
  | cons w ws ih =>
    simp only [List.flatMap_cons, List.cons_append, List.nil_append, List.filter_cons,
      Event.isWrite, Event.isDelay, if_true, List.length_cons, ih.1, ih.2]
    simp only [Bool.false_eq_true, if_false, List.length_cons, ih.1, ih.2, and_self]

/-- In a sequence of pairs (write, delay) the event after a write is the delay. -/
theorem paced_next (u : Int) : ∀ (ws : List (Int × Int × WriteResult)) (k : Nat)
    (o n : Int) (r : WriteResult),
    (ws.flatMap fun w => [Event.write w.1 w.2.1 w.2.2, Event.usleep u])[k]?
        = some (Event.write o n r) →
    (ws.flatMap fun w => [Event.write w.1 w.2.1 w.2.2, Event.usleep u])[k + 1]?
        = some (Event.usleep u) := by
  intro ws
  induction ws with
  | nil => intro k o n r h; simp at h
  | cons w ws ih =>
    intro k o n r h
    simp only [List.flatMap_cons, List.cons_append, List.nil_append] at h ⊢
    match k, h with
    | 0, _ => simp
    | 1, h => simp at h
    | k + 2, h =>
      simp only [List.getElem?_cons_succ] at h ⊢
      exact ih k o n r h

/-- The trace of `plot_point` is a sequence of pairs (write, delay). -/
theorem plot_point_paced (u : Int) (c : Nat) (x y : Int) (rs : List WriteResult) :
    ∃ ws : List (Int × Int × WriteResult),
      (plot_point u c x y rs).trace
        = ws.flatMap fun w => [Event.write w.1 w.2.1 w.2.2, Event.usleep u] := by
  by_cases h : (stage c x y).2 ≥ 256
  · exact ⟨[], by simp only [plot_point, h, if_true, List.flatMap_nil]⟩
  · obtain ⟨ws, hws⟩ := write_loop_paced u (stage c x y).1 rs 0 (stage c x y).2
    exact ⟨ws, by simp only [plot_point, h, if_false]; exact hws⟩

/-- A failure other than `EAGAIN` while the frame is incomplete: exit status 3. -/
theorem plot_point_fatal (u : Int) (c : Nat) (x y : Int)
    (pre post : List WriteResult) (e : Nat)
    (hc : c < 256) (hx : isInt32 x) (hy : isInt32 y)
    (he : e ≠ EAGAIN)
    (hret : ∀ r ∈ pre, retryable r)
    (hshort : ∀ k, k ≤ pre.length → accepted (pre.take k) ≠ (frame c x y).length) :
    plot_point u c x y (pre ++ WriteResult.failed e :: post)
      = ⟨Outcome.exited 3,
          attempts u (frame c x y).length (pre ++ WriteResult.failed e :: post)
            (pre.length + 1),
          wireOf (frame c x y ++ [0]) 0 pre, post⟩ := by
  have hs := stage_eq c x y hc hx hy
  have hlen := frame_length_le c x y hx hy
  have hnot : ¬ (((frame c x y).length : Int) ≥ 256) := by omega
  have hrun := write_loop_fatal u (frame c x y ++ [0]) (frame c x y).length pre post e he
    hret (fun k _ hk => hshort k hk)
  simp only [plot_point, hs, hnot, if_false]
  exact hrun

/-! ## Lemmas on the escape loop -/

/-- Invariant of the escape loop, entered at step `k` with `z = z_k`. -/
theorem escape_loop_from (x0 y0 : ℚ) (maxiter : Int) : ∀ (n k : Nat),
    (maxiter - (k : Int)).toNat = n →
    (∀ m, m < k → normSq (orbit x0 y0 m) < 4) →
    k ≤ escape_loop x0 y0 maxiter (orbit x0 y0 k).1 (orbit x0 y0 k).2 k
      ∧ (∀ m, m < escape_loop x0 y0 maxiter (orbit x0 y0 k).1 (orbit x0 y0 k).2 k →
          normSq (orbit x0 y0 m) < 4)
      ∧ (((escape_loop x0 y0 maxiter (orbit x0 y0 k).1 (orbit x0 y0 k).2 k : Nat) : Int)
            < maxiter →
          4 ≤ normSq (orbit x0 y0
            (escape_loop x0 y0 maxiter (orbit x0 y0 k).1 (orbit x0 y0 k).2 k)))
      ∧ ((k : Int) ≤ maxiter →
          ((escape_loop x0 y0 maxiter (orbit x0 y0 k).1 (orbit x0 y0 k).2 k : Nat) : Int)
            ≤ maxiter) := by
  intro n
  induction n with
  | zero =>
    intro k hk hbelow
    have hge : ¬ ((k : Int) < maxiter) := by omega
    rw [escape_loop]
    simp only [hge, and_false, if_false]
    refine ⟨le_refl _, hbelow, ?_, fun h => h⟩
    intro h
    exact h.elim
  | succ n ih =>
    intro k hk hbelow
    rw [escape_loop]
    by_cases hc : (orbit x0 y0 k).1 * (orbit x0 y0 k).1
        + (orbit x0 y0 k).2 * (orbit x0 y0 k).2 < 4 ∧ (k : Int) < maxiter
    · simp only [hc, and_self, if_true]
      have hstep : (maxiter - ((k + 1 : Nat) : Int)).toNat = n := by omega
      have hbelow' : ∀ m, m < k + 1 → normSq (orbit x0 y0 m) < 4 := by
        intro m hm
        rcases Nat.lt_succ_iff_lt_or_eq.mp hm with h | h
        · exact hbelow m h
        · rw [h]; exact hc.1
      have h := ih (k + 1) hstep hbelow'
      simp only [orbit] at h
      refine ⟨by omega, h.2.1, h.2.2.1, fun _ => h.2.2.2 (by omega)⟩
    · simp only [hc, if_false]
      refine ⟨le_refl _, hbelow, ?_, fun h => h⟩
      intro hlt
      by_contra hcon
      exact hc ⟨lt_of_not_le hcon, hlt⟩

/-- The escape count: it is at most `maxiter`, every earlier orbit point has
`|z|^2 < 4`, and it stops below `maxiter` only at a point with `|z|^2 ≥ 4`. -/
theorem escape_loop_spec (x0 y0 : ℚ) (maxiter : Int) (h0 : 0 ≤ maxiter) :
    ((escape_loop x0 y0 maxiter 0 0 0 : Nat) : Int) ≤ maxiter
      ∧ (∀ m, m < escape_loop x0 y0 maxiter 0 0 0 → normSq (orbit x0 y0 m) < 4)
      ∧ (((escape_loop x0 y0 maxiter 0 0 0 : Nat) : Int) < maxiter →
          4 ≤ normSq (orbit x0 y0 (escape_loop x0 y0 maxiter 0 0 0))) := by
  have h := escape_loop_from x0 y0 maxiter _ 0 rfl (fun m hm => absurd hm (Nat.not_lt_zero m))
  simp only [orbit] at h
  exact ⟨h.2.2.2 (by simpa using h0), h.2.1, h.2.2.1⟩

/-- A point with `|c|^2 > 4` leaves the loop after one iteration when at least
one iteration is allowed. -/
theorem escape_loop_outside (x0 y0 : ℚ) (maxiter : Int) (hc : 4 < x0 * x0 + y0 * y0)
    (hm : 1 ≤ maxiter) : escape_loop x0 y0 maxiter 0 0 0 = 1 := by
  have h1 : (0 : Int) < maxiter := by omega
  have h2 : ¬ (x0 * x0 + y0 * y0 < 4) := not_lt.mpr (le_of_lt hc)
  rw [escape_loop]
  simp only [mul_zero, add_zero, Nat.cast_zero, h1, and_true, sub_zero, zero_add]
  norm_num
  rw [escape_loop]
  simp [h2]

/-! ## Lemmas on the colouring policies -/

theorem pick_index_mod (maxiter : Int) (iter i j : Nat) :
    pick_index COLOUR_MOD maxiter iter i j
      = Except.ok (if maxiter ≤ (iter : Int) then 7 else ((iter % 7 : Nat) : Int)) := by
  have h : Int.tmod (iter : Int) 7 = ((iter % 7 : Nat) : Int) := by
    rw [Int.tmod_eq_emod (by omega) (by omega)]
    omega
  simp [pick_index, text_palette, h]

theorem pick_index_test (maxiter : Int) (iter i j : Nat) :
    pick_index COLOUR_TEST maxiter iter i j = Except.ok (((i + j) % 7 : Nat) : Int) := by
  have h : Int.tmod ((i : Int) + (j : Int)) 7 = (((i + j) % 7 : Nat) : Int) := by
    rw [Int.tmod_eq_emod (by omega) (by omega)]
    omega
  simp [pick_index, text_palette, COLOUR_TEST, COLOUR_MOD, COLOUR_SCALED, h]

theorem pick_index_scaled_ge (maxiter : Int) (iter i j : Nat) (h : maxiter ≤ (iter : Int)) :
    pick_index COLOUR_SCALED maxiter iter i j = Except.ok 7 := by
  simp [pick_index, text_palette, COLOUR_MOD, COLOUR_SCALED, h]

/-- Below `maxiter` the scaled value `0.5 + iter * scale_factor` lies in
`[0.5, 6.5)`. -/
theorem scaled_value_bounds (maxiter : Int) (iter : Nat) (h : (iter : Int) < maxiter) :
    (1 / 2 : ℚ) ≤ (1 / 2 : ℚ) + (iter : ℚ) * scale_factor 8 maxiter
      ∧ (1 / 2 : ℚ) + (iter : ℚ) * scale_factor 8 maxiter < 13 / 2 := by
  have hm : (0 : ℚ) < (maxiter : ℚ) := by
    have : (0 : Int) < maxiter := by omega
    exact_mod_cast this
  have hi : (0 : ℚ) ≤ (iter : ℚ) := Nat.cast_nonneg iter
  have hlt : (iter : ℚ) < (maxiter : ℚ) := by exact_mod_cast h
  have hval : (iter : ℚ) * scale_factor 8 maxiter = (iter : ℚ) * 6 / (maxiter : ℚ) := by
    unfold scale_factor
    push_cast
    ring
  rw [hval]
  constructor
  · have : 0 ≤ (iter : ℚ) * 6 / (maxiter : ℚ) := by positivity
    linarith
  · have : (iter : ℚ) * 6 / (maxiter : ℚ) < 6 := by
      rw [div_lt_iff₀ hm]
      nlinarith
    linarith

theorem pick_index_scaled_lt (maxiter : Int) (iter i j : Nat) (h : (iter : Int) < maxiter) :
    pick_index COLOUR_SCALED maxiter iter i j
        = Except.ok ⌊(1 / 2 : ℚ) + (iter : ℚ) * 6 / (maxiter : ℚ)⌋
      ∧ 0 ≤ ⌊(1 / 2 : ℚ) + (iter : ℚ) * 6 / (maxiter : ℚ)⌋
      ∧ ⌊(1 / 2 : ℚ) + (iter : ℚ) * 6 / (maxiter : ℚ)⌋ ≤ 6 := by
  have hb := scaled_value_bounds maxiter iter h
  have hval : (iter : ℚ) * scale_factor 8 maxiter = (iter : ℚ) * 6 / (maxiter : ℚ) := by
    unfold scale_factor
    push_cast
    ring
  rw [hval] at hb
  have hlo : 0 ≤ ⌊(1 / 2 : ℚ) + (iter : ℚ) * 6 / (maxiter : ℚ)⌋ :=
    Int.floor_nonneg.mpr (by linarith [hb.1])
  have hhi : ⌊(1 / 2 : ℚ) + (iter : ℚ) * 6 / (maxiter : ℚ)⌋ < 7 :=
    Int.floor_lt.mpr (by push_cast; linarith [hb.2])
  have hnot : ¬ (maxiter ≤ (iter : Int)) := by omega
  refine ⟨?_, hlo, by omega⟩
  simp only [pick_index, text_palette, COLOUR_MOD, COLOUR_SCALED, List.length_cons,
    List.length_nil]
  norm_num
  rw [if_neg hnot, hval, if_pos hhi]

theorem pick_index_unknown (painter maxiter : Int) (iter i j : Nat)
    (h1 : painter ≠ COLOUR_SCALED) (h2 : painter ≠ COLOUR_MOD) (h3 : painter ≠ COLOUR_TEST) :
    pick_index painter maxiter iter i j = Except.error (Outcome.exited 2) := by
  simp [pick_index, h1, h2, h3]

theorem palette_at_ok (idx : Int) (h0 : 0 ≤ idx) (h7 : idx ≤ 7) :
    palette_at idx = Except.ok (text_palette.getD idx.toNat 0)
      ∧ text_palette.getD idx.toNat 0 < 256
      ∧ (text_palette.getD idx.toNat 0 = 48 ↔ idx = 7)
      ∧ (idx < 7 → 49 ≤ text_palette.getD idx.toNat 0 ∧ text_palette.getD idx.toNat 0 ≤ 55) := by
  obtain ⟨n, rfl⟩ := Int.eq_ofNat_of_zero_le h0
  have hn : n ≤ 7 := by omega
  simp only [Int.toNat_ofNat]
  interval_cases n <;> simp [palette_at, text_palette]

/-- With a recognised policy the switch yields a palette index between 0 and 7. -/
theorem pick_index_recognised (painter maxiter : Int) (iter i j : Nat)
    (hp : painter = COLOUR_SCALED ∨ painter = COLOUR_MOD ∨ painter = COLOUR_TEST) :
    ∃ idx : Int, pick_index painter maxiter iter i j = Except.ok idx ∧ 0 ≤ idx ∧ idx ≤ 7 := by
  rcases hp with hp | hp | hp
  · rw [hp]
    by_cases h : maxiter ≤ (iter : Int)
    · exact ⟨7, pick_index_scaled_ge maxiter iter i j h, by omega, by omega⟩
    · have hs := pick_index_scaled_lt maxiter iter i j (by omega)
      exact ⟨_, hs.1, hs.2.1, by omega⟩
  · rw [hp, pick_index_mod]
    by_cases h : maxiter ≤ (iter : Int)
    · exact ⟨7, by simp [h], by omega, by omega⟩
    · exact ⟨((iter % 7 : Nat) : Int), by simp [h], by omega, by omega⟩
  · rw [hp, pick_index_test]
    exact ⟨_, rfl, by omega, by omega⟩

/-- With a recognised policy the switch yields a palette byte. -/
theorem pick_colour_recognised (painter maxiter : Int) (iter i j : Nat)
    (hp : painter = COLOUR_SCALED ∨ painter = COLOUR_MOD ∨ painter = COLOUR_TEST) :
    ∃ c : Nat, pick_colour painter maxiter iter i j = Except.ok c ∧ c < 256 := by
  obtain ⟨idx, h1, h2, h3⟩ := pick_index_recognised painter maxiter iter i j hp
  have hp := palette_at_ok idx h2 h3
  exact ⟨_, by simp only [pick_colour, h1]; exact hp.1, hp.2.1⟩

/-! ## The orbit as a complex recurrence -/

/-- The pairs of `orbit` are the real and imaginary parts of `z_(k+1) = z_k ^ 2 + c`. -/
theorem orbit_succ_complex (x0 y0 : ℚ) (k : Nat) :
    (Complex.mk ((orbit x0 y0 (k + 1)).1 : ℝ) ((orbit x0 y0 (k + 1)).2 : ℝ))
      = (Complex.mk ((orbit x0 y0 k).1 : ℝ) ((orbit x0 y0 k).2 : ℝ)) ^ 2
        + Complex.mk (x0 : ℝ) (y0 : ℝ) := by
  apply Complex.ext
  · simp [orbit, pow_two]
  · simp [orbit, pow_two]
    ring

/-- The rational `normSq` is the squared modulus of the complex number. -/
theorem normSq_complex (z : ℚ × ℚ) :
    ((normSq z : ℚ) : ℝ) = Complex.normSq (Complex.mk (z.1 : ℝ) (z.2 : ℝ)) := by
  simp [normSq, Complex.normSq_mk]

/-! ## Lemmas on the loops of `mandelbrot` -/

theorem isInt32_of_lt_COLS (i : Nat) (h : i < COLS) : isInt32 (i : Int) := by
  unfold COLS at h
  unfold isInt32
  omega

/-- One round of the inner loop whose `plot_point` call returns. -/
theorem rows_loop_step (g : Globals) (maxiter painter : Int) (y_delta x0 : ℚ) (i j : Nat)
    (y0 : ℚ) (rs : List WriteResult) (c : Nat) (run : Run) (hj : j < ROWS)
    (hc : pick_colour painter maxiter (escape_loop x0 y0 maxiter 0 0 0) i j = Except.ok c)
    (hrun : plot_point g.usleep_time c (i : Int) (j : Int) rs = run)
    (hret : run.outcome = Outcome.returned) :
    rows_loop g maxiter painter y_delta x0 i j y0 rs
      = Render.after (c, (i : Int), (j : Int)) run
          (rows_loop g maxiter painter y_delta x0 i (j + 1) (y0 + y_delta) run.rest) := by
  rw [rows_loop]
  simp only [hj, if_true, hc, hrun, hret]

/-- The inner loop stops at once when the switch does not yield a colour. -/
theorem rows_loop_stop (g : Globals) (maxiter painter : Int) (y_delta x0 : ℚ) (i j : Nat)
    (y0 : ℚ) (rs : List WriteResult) (o : Outcome) (hj : j < ROWS)
    (hc : pick_colour painter maxiter (escape_loop x0 y0 maxiter 0 0 0) i j
      = Except.error o) :
    rows_loop g maxiter painter y_delta x0 i j y0 rs = ⟨o, [], [], [], rs⟩ := by
  rw [rows_loop]
  simp only [hj, if_true, hc]

theorem rows_loop_done (g : Globals) (maxiter painter : Int) (y_delta x0 : ℚ) (i j : Nat)
    (y0 : ℚ) (rs : List WriteResult) (hj : ¬ j < ROWS) :
    rows_loop g maxiter painter y_delta x0 i j y0 rs = ⟨Outcome.returned, [], [], [], rs⟩ := by
  rw [rows_loop]
  simp only [hj, if_false]

/-- The inner loop from row `j` on, when the device delivers every frame of the
column: it returns, has called `plot_point` for the rows `j, ..., ROWS - 1` in
order, and leaves the responses behind those of the column. -/
theorem rows_loop_covering (g : Globals) (maxiter painter : Int) (y_delta x0 : ℚ) (i : Nat)
    (resp : Nat → List WriteResult)
    (hp : painter = COLOUR_SCALED ∨ painter = COLOUR_MOD ∨ painter = COLOUR_TEST)
    (hi : i < COLS)
    (hcov : ∀ (c : Nat) (j : Nat), j < ROWS → covers (frame c (i : Int) (j : Int)).length (resp j)) :
    ∀ (n j : Nat), j + n = ROWS → ∀ (y0 : ℚ) (post : List WriteResult),
      (rows_loop g maxiter painter y_delta x0 i j y0
          ((List.range' j n).flatMap resp ++ post)).outcome = Outcome.returned
        ∧ (rows_loop g maxiter painter y_delta x0 i j y0
          ((List.range' j n).flatMap resp ++ post)).rest = post
        ∧ (rows_loop g maxiter painter y_delta x0 i j y0
          ((List.range' j n).flatMap resp ++ post)).calls.map coords
            = (List.range' j n).map fun (j' : Nat) => ((i : Int), (j' : Int)) := by
  intro n
  induction n with
  | zero =>
    intro j hj y0 post
    rw [rows_loop_done g maxiter painter y_delta x0 i j y0 _ (by omega)]
    simp
  | succ n ih =>
    intro j hj y0 post
    have hjlt : j < ROWS := by omega
    obtain ⟨c, hc, hc256⟩ :=
      pick_colour_recognised painter maxiter (escape_loop x0 y0 maxiter 0 0 0) i j hp
    have hjint : isInt32 (j : Int) := by
      unfold ROWS at hjlt
      unfold isInt32
      omega
    have hrs : (List.range' j (n + 1)).flatMap resp ++ post
        = resp j ++ ((List.range' (j + 1) n).flatMap resp ++ post) := by
      rw [List.range'_succ, List.flatMap_cons, List.append_assoc]
    have hrun := plot_point_covering g.usleep_time c (i : Int) (j : Int) (resp j)
      ((List.range' (j + 1) n).flatMap resp ++ post) hc256 (isInt32_of_lt_COLS i hi) hjint
      (hcov c j hjlt)
    rw [hrs, rows_loop_step g maxiter painter y_delta x0 i j y0 _ c _ hjlt hc hrun rfl]
    obtain ⟨h1, h2, h3⟩ := ih (j + 1) (by omega) (y0 + y_delta) post
    refine ⟨h1, h2, ?_⟩
    simp only [Render.after, List.map_cons, h3, List.range'_succ]
    rfl

theorem cols_loop_step (g : Globals) (maxiter painter : Int) (x_delta y_delta : ℚ) (i : Nat)
    (x0 : ℚ) (rs : List WriteResult) (hi : i < COLS)
    (hret : (rows_loop g maxiter painter y_delta x0 i 0 g.y_bottom rs).outcome
      = Outcome.returned) :
    cols_loop g maxiter painter x_delta y_delta i x0 rs
      = Render.andThen (rows_loop g maxiter painter y_delta x0 i 0 g.y_bottom rs)
          (cols_loop g maxiter painter x_delta y_delta (i + 1) (x0 + x_delta)
            (rows_loop g maxiter painter y_delta x0 i 0 g.y_bottom rs).rest) := by
  rw [cols_loop]
  simp only [hi, if_true, hret]

theorem cols_loop_stop (g : Globals) (maxiter painter : Int) (x_delta y_delta : ℚ) (i : Nat)
    (x0 : ℚ) (rs : List WriteResult) (hi : i < COLS)
    (hret : (rows_loop g maxiter painter y_delta x0 i 0 g.y_bottom rs).outcome
      ≠ Outcome.returned) :
    cols_loop g maxiter painter x_delta y_delta i x0 rs
      = rows_loop g maxiter painter y_delta x0 i 0 g.y_bottom rs := by
  rw [cols_loop]
  simp only [hi, if_true, hret, if_false]

theorem cols_loop_done (g : Globals) (maxiter painter : Int) (x_delta y_delta : ℚ) (i : Nat)
    (x0 : ℚ) (rs : List WriteResult) (hi : ¬ i < COLS) :
    cols_loop g maxiter painter x_delta y_delta i x0 rs
      = ⟨Outcome.returned, [], [], [], rs⟩ := by
  rw [cols_loop]
  simp only [hi, if_false]

/-- The outer loop from column `i` on, when the device delivers every frame. -/
theorem cols_loop_covering (g : Globals) (maxiter painter : Int) (x_delta y_delta : ℚ)
    (resp : Nat → Nat → List WriteResult)
    (hp : painter = COLOUR_SCALED ∨ painter = COLOUR_MOD ∨ painter = COLOUR_TEST)
    (hcov : ∀ (c : Nat) (i j : Nat), i < COLS → j < ROWS →
      covers (frame c (i : Int) (j : Int)).length (resp i j)) :
    ∀ (n i : Nat), i + n = COLS → ∀ (x0 : ℚ) (post : List WriteResult),
      (cols_loop g maxiter painter x_delta y_delta i x0
          ((List.range' i n).flatMap (fun i' => (List.range ROWS).flatMap (resp i')) ++ post)
        ).outcome = Outcome.returned
        ∧ (cols_loop g maxiter painter x_delta y_delta i x0
          ((List.range' i n).flatMap (fun i' => (List.range ROWS).flatMap (resp i')) ++ post)
        ).rest = post
        ∧ (cols_loop g maxiter painter x_delta y_delta i x0
          ((List.range' i n).flatMap (fun i' => (List.range ROWS).flatMap (resp i')) ++ post)
        ).calls.map coords
            = (List.range' i n).flatMap fun (i' : Nat) =>
                (List.range ROWS).map fun (j : Nat) => ((i' : Int), (j : Int)) := by
  intro n
  induction n with
  | zero =>
    intro i hi x0 post
    rw [cols_loop_done g maxiter painter x_delta y_delta i x0 _ (by omega)]
    simp
  | succ n ih =>
    intro i hi x0 post
    have hilt : i < COLS := by omega
    have hrs : (List.range' i (n + 1)).flatMap
          (fun i' => (List.range ROWS).flatMap (resp i')) ++ post
        = (List.range' 0 ROWS).flatMap (resp i)
          ++ ((List.range' (i + 1) n).flatMap
              (fun i' => (List.range ROWS).flatMap (resp i')) ++ post) := by
      rw [List.range'_succ, List.flatMap_cons, List.append_assoc, List.range_eq_range']
    obtain ⟨r1, r2, r3⟩ := rows_loop_covering g maxiter painter y_delta x0 i (resp i) hp hilt
      (fun c j hj => hcov c i j hilt hj) ROWS 0 (by omega) g.y_bottom
      ((List.range' (i + 1) n).flatMap
        (fun i' => (List.range ROWS).flatMap (resp i')) ++ post)
    rw [hrs, cols_loop_step g maxiter painter x_delta y_delta i x0 _ hilt r1, r2]
    obtain ⟨h1, h2, h3⟩ := ih (i + 1) (by omega) (x0 + x_delta) post
    refine ⟨h1, h2, ?_⟩
    simp only [Render.andThen, List.map_append, List.range'_succ, List.flatMap_cons]
    rw [r3, h3, List.range_eq_range']

theorem grid_cells_length : grid_cells.length = 76800 := by
  unfold grid_cells
  rw [List.length_flatMap]
  simp only [Function.comp_def, List.length_map, List.length_range, List.map_const',
    List.sum_replicate, smul_eq_mul]
  rfl

theorem grid_cells_nodup : grid_cells.Nodup := by
  unfold grid_cells
  rw [List.nodup_flatMap]
  constructor
  · intro i _
    refine (List.nodup_range ROWS).map ?_
    intro a b hab
    simpa using hab
  · refine (List.nodup_range COLS).pairwise_of_forall_ne ?_
    intro a _ b _ hab
    simp only [Function.onFun]
    rw [List.disjoint_left]
    intro p hp1 hp2
    simp only [List.mem_map, List.mem_range] at hp1 hp2
    obtain ⟨j1, _, h1⟩ := hp1
    obtain ⟨j2, _, h2⟩ := hp2
    rw [← h2] at h1
    have := (Prod.mk.inj h1).1
    exact hab (by exact_mod_cast this)

/-! ## Lemmas on the `iteratively` branch -/

/-- For a first index below `ROWS` the inner zeroing loop stays inside both arrays. -/
theorem zero_rows_returns (i : Nat) (hi : i < ROWS) : ∀ (n j : Nat), j + n = ROWS →
    ∀ (rv iv : Store), (zero_rows i j rv iv).1 = Outcome.returned := by
  intro n
  induction n with
  | zero =>
    intro j hj rv iv
    rw [zero_rows]
    simp only [show ¬ j < ROWS by omega, if_false]
  | succ n ih =>
    intro j hj rv iv
    have hjlt : j < ROWS := by omega
    have hjc : j < COLS := by
      unfold ROWS at hjlt
      unfold COLS
      omega
    rw [zero_rows]
    simp only [hjlt, if_true, Store.set, hi, hjc, and_self]
    exact ih (j + 1) (by omega) _ _

/-- For a first index `ROWS` or more the first assignment is outside the array. -/
theorem zero_rows_faults (i : Nat) (hi : ¬ i < ROWS) (rv iv : Store) :
    (zero_rows i 0 rv iv).1 = Outcome.fault := by
  have hi' : ¬ i < 240 := hi
  rw [zero_rows]
  simp [Store.set, hi', ROWS]

/-- The outer zeroing loop reaches the first index `ROWS` and faults there. -/
theorem zero_cols_faults : ∀ (n i : Nat), i + n = ROWS →
    ∀ (rv iv : Store), (zero_cols i rv iv).1 = Outcome.fault := by
  intro n
  induction n with
  | zero =>
    intro i hi rv iv
    have hic : i < COLS := by
      unfold ROWS at hi
      unfold COLS
      omega
    have hf := zero_rows_faults i (by omega) rv iv
    rw [zero_cols]
    simp only [hic, if_true]
    rcases hz : zero_rows i 0 rv iv with ⟨o, rv', iv'⟩
    rw [hz] at hf
    simp only at hf
    rw [hf]
  | succ n ih =>
    intro i hi rv iv
    have hir : i < ROWS := by omega
    have hic : i < COLS := by
      unfold ROWS at hir
      unfold COLS
      omega
    have hr := zero_rows_returns i hir ROWS 0 (by omega) rv iv
    rw [zero_cols]
    simp only [hic, if_true]
    rcases hz : zero_rows i 0 rv iv with ⟨o, rv', iv'⟩
    rw [hz] at hr
    simp only at hr
    rw [hr]
    exact ih (i + 1) (by omega) rv' iv'

/-- A list built block by block, listed by a single running index. -/
theorem flatMap_range_blocks {α : Type} (f : Nat → Nat → α) (n : Nat) (hn : 0 < n) :
    ∀ m : Nat, ((List.range m).flatMap fun (i : Nat) => (List.range n).map fun (j : Nat) => f i j)
      = (List.range (m * n)).map fun (k : Nat) => f (k / n) (k % n) := by
  intro m
  induction m with
  | zero => simp
  | succ m ih =>
    rw [List.range_succ, List.flatMap_append, ih, Nat.succ_mul, List.range_add, List.map_append]
    congr 1
    simp only [List.flatMap_cons, List.flatMap_nil, List.append_nil, List.map_map]
    apply List.map_congr_left
    intro j hj
    have hjn : j < n := List.mem_range.mp hj
    have h1 : (m * n + j) / n = m := by
      rw [Nat.add_comm, Nat.add_mul_div_right _ _ hn, Nat.div_eq_of_lt hjn, Nat.zero_add]
    have h2 : (m * n + j) % n = j := by
      rw [Nat.add_comm, Nat.add_mul_mod_self_right, Nat.mod_eq_of_lt hjn]
    simp only [Function.comp, h1, h2]

theorem grid_cells_eq_map : grid_cells
    = (List.range (COLS * ROWS)).map fun (k : Nat) => (((k / ROWS : Nat) : Int), ((k % ROWS : Nat) : Int)) := by
  unfold grid_cells
  exact flatMap_range_blocks (fun i j => ((i : Int), (j : Int))) ROWS (by decide) COLS

theorem grid_cells_getElem? (i j : Nat) (hi : i < COLS) (hj : j < ROWS) :
    grid_cells[i * ROWS + j]? = some ((i : Int), (j : Int)) := by
  have hlt : i * ROWS + j < COLS * ROWS := by
    have : (i + 1) * ROWS ≤ COLS * ROWS := Nat.mul_le_mul_right _ hi
    rw [Nat.succ_mul] at this
    omega
  have h1 : (i * ROWS + j) / ROWS = i := by
    rw [Nat.add_comm, Nat.add_mul_div_right _ _ (by decide), Nat.div_eq_of_lt hj, Nat.zero_add]
  have h2 : (i * ROWS + j) % ROWS = j := by
    rw [Nat.add_comm, Nat.add_mul_mod_self_right, Nat.mod_eq_of_lt hj]
  rw [grid_cells_eq_map, List.getElem?_map, List.getElem?_range hlt]
  simp only [Option.map_some', h1, h2]

/-! ## Lemmas on `mandelbrot` as a whole -/

/-- With `iteratively ≠ 0` the run consists of the zeroing loops only: nothing is
sent and `painter` and `maxiter` are not inspected. -/
theorem mandelbrot_iterative (g : Globals) (maxiter painter iteratively : Int)
    (rs : List WriteResult) (h : iteratively ≠ 0) :
    (mandelbrot g maxiter painter iteratively rs).render
      = ⟨(zero_cols 0 g.real_val g.imag_val).1, [], [], [], rs⟩ := by
  unfold mandelbrot
  simp only [h, ne_eq, not_false_eq_true, if_true]

/-- The rendering of a run with `iteratively ≠ 0`, given how the zeroing loops end. -/
theorem mandelbrot_iterative_render (g : Globals) (maxiter painter iteratively : Int)
    (rs : List WriteResult) (h : iteratively ≠ 0) (o : Outcome)
    (ho : (zero_cols 0 g.real_val g.imag_val).1 = o) :
    (mandelbrot g maxiter painter iteratively rs).render = ⟨o, [], [], [], rs⟩ := by
  rw [← ho]
  exact mandelbrot_iterative g maxiter painter iteratively rs h

/-- With `iteratively = 0` the run is the rendering loop nest. -/
theorem mandelbrot_rendering (g : Globals) (maxiter painter : Int) (rs : List WriteResult) :
    (mandelbrot g maxiter painter 0 rs).render
      = cols_loop g maxiter painter ((g.x_right - g.x_left) / (COLS : ℚ))
          ((g.y_top - g.y_bottom) / (ROWS : ℚ)) 0 g.x_left rs := by
  simp only [mandelbrot, ne_eq, not_true_eq_false, if_false]

/-- In the rendering mode an unrecognised selector ends the run with status 2 at the
first cell, before anything is sent. -/
theorem mandelbrot_unknown_policy (g : Globals) (maxiter painter : Int)
    (rs : List WriteResult)
    (h1 : painter ≠ COLOUR_SCALED) (h2 : painter ≠ COLOUR_MOD) (h3 : painter ≠ COLOUR_TEST) :
    (mandelbrot g maxiter painter 0 rs).render = ⟨Outcome.exited 2, [], [], [], rs⟩ := by
  have hidx := fun (iter : Nat) => pick_index_unknown painter maxiter iter 0 0 h1 h2 h3
  have hcol : pick_colour painter maxiter
      (escape_loop g.x_left g.y_bottom maxiter 0 0 0) 0 0
        = Except.error (Outcome.exited 2) := by
    simp only [pick_colour, hidx]
  have h0r : 0 < ROWS := by decide
  have h0c : 0 < COLS := by decide
  have hrow := rows_loop_stop g maxiter painter ((g.y_top - g.y_bottom) / (ROWS : ℚ))
    g.x_left 0 0 g.y_bottom rs (Outcome.exited 2) h0r hcol
  have hne : (rows_loop g maxiter painter ((g.y_top - g.y_bottom) / (ROWS : ℚ))
      g.x_left 0 0 g.y_bottom rs).outcome ≠ Outcome.returned := by
    rw [hrow]
    simp
  have hcols := cols_loop_stop g maxiter painter ((g.x_right - g.x_left) / (COLS : ℚ))
    ((g.y_top - g.y_bottom) / (ROWS : ℚ)) 0 g.x_left rs h0c hne
  rw [mandelbrot_rendering, hcols, hrow]

/-! ## Lemmas on `main` -/

/-- With a valid descriptor and two responses, `main` makes its two startup writes,
each followed by a delay of 500000 microseconds, and then runs `mandelbrot` on the
remaining responses. -/
theorem main_startup (g : Globals) (iterative painter max_iter fd : Int)
    (r1 r2 : WriteResult) (rs : List WriteResult) (h : 0 ≤ fd) :
    (main g iterative painter max_iter fd (r1 :: r2 :: rs)).startup
        = [Syscall.write [32, 27, 48, 114] r1, Syscall.usleep 500000,
            Syscall.write [27, 91, 50, 74] r2, Syscall.usleep 500000]
      ∧ (main g iterative painter max_iter fd (r1 :: r2 :: rs)).render
        = some (mandelbrot g max_iter painter iterative rs).render := by
  have hn : ¬ fd < 0 := by omega
  simp only [main, hn, if_false, reset_literal, clear_literal, List.take, and_self]

/-! ## Lemmas on the points and colours of the cells -/

theorem advanced_eq (start delta : ℚ) (n : Nat) :
    advanced start delta n = start + (n : ℚ) * delta := by
  induction n with
  | zero => simp [advanced]
  | succ n ih =>
    simp only [advanced, ih]
    push_cast
    ring

theorem plotted_of_ok (painter maxiter : Int) (x0 y0 : ℚ) (i j : Nat) (c : Nat)
    (h : pick_colour painter maxiter (escape_loop x0 y0 maxiter 0 0 0) i j = Except.ok c) :
    plotted painter maxiter x0 y0 i j = c := by
  simp only [plotted, h]

/-- The calls of the inner loop from row `j` on, when the device delivers every
frame of the column: row `j'` is plotted with the colour computed from `x0` and
the value of `y0` after `j'` rounds. -/
theorem rows_loop_calls (g : Globals) (maxiter painter : Int) (y_delta x0 : ℚ) (i : Nat)
    (resp : Nat → List WriteResult)
    (hp : painter = COLOUR_SCALED ∨ painter = COLOUR_MOD ∨ painter = COLOUR_TEST)
    (hi : i < COLS)
    (hcov : ∀ (c : Nat) (j : Nat), j < ROWS → covers (frame c (i : Int) (j : Int)).length (resp j)) :
    ∀ (n j : Nat), j + n = ROWS → ∀ (post : List WriteResult),
      (rows_loop g maxiter painter y_delta x0 i j (advanced g.y_bottom y_delta j)
          ((List.range' j n).flatMap resp ++ post)).calls
        = (List.range' j n).map fun (j' : Nat) =>
            (plotted painter maxiter x0 (advanced g.y_bottom y_delta j') i j',
              (i : Int), (j' : Int)) := by
  intro n
  induction n with
  | zero =>
    intro j hj post
    rw [rows_loop_done g maxiter painter y_delta x0 i j _ _ (by omega)]
    simp
  | succ n ih =>
    intro j hj post
    have hjlt : j < ROWS := by omega
    obtain ⟨c, hc, hc256⟩ := pick_colour_recognised painter maxiter
      (escape_loop x0 (advanced g.y_bottom y_delta j) maxiter 0 0 0) i j hp
    have hjint : isInt32 (j : Int) := by
      unfold ROWS at hjlt
      unfold isInt32
      omega
    have hrs : (List.range' j (n + 1)).flatMap resp ++ post
        = resp j ++ ((List.range' (j + 1) n).flatMap resp ++ post) := by
      rw [List.range'_succ, List.flatMap_cons, List.append_assoc]
    have hrun := plot_point_covering g.usleep_time c (i : Int) (j : Int) (resp j)
      ((List.range' (j + 1) n).flatMap resp ++ post) hc256 (isInt32_of_lt_COLS i hi) hjint
      (hcov c j hjlt)
    have hnext : advanced g.y_bottom y_delta j + y_delta
        = advanced g.y_bottom y_delta (j + 1) := rfl
    rw [hrs, rows_loop_step g maxiter painter y_delta x0 i j _ _ c _ hjlt hc hrun rfl]
    simp only [Render.after, List.range'_succ, List.map_cons]
    rw [hnext, ih (j + 1) (by omega) post, plotted_of_ok painter maxiter x0 _ i j c hc]

/-- The calls of the outer loop from column `i` on, when the device delivers every
frame. -/
theorem cols_loop_calls (g : Globals) (maxiter painter : Int) (x_delta y_delta : ℚ)
    (resp : Nat → Nat → List WriteResult)
    (hp : painter = COLOUR_SCALED ∨ painter = COLOUR_MOD ∨ painter = COLOUR_TEST)
    (hcov : ∀ (c : Nat) (i j : Nat), i < COLS → j < ROWS →
      covers (frame c (i : Int) (j : Int)).length (resp i j)) :
    ∀ (n i : Nat), i + n = COLS → ∀ (post : List WriteResult),
      (cols_loop g maxiter painter x_delta y_delta i (advanced g.x_left x_delta i)
          ((List.range' i n).flatMap (fun i' => (List.range ROWS).flatMap (resp i')) ++ post)
        ).calls
        = (List.range' i n).flatMap fun (i' : Nat) =>
            (List.range ROWS).map fun (j : Nat) =>
              (plotted painter maxiter (advanced g.x_left x_delta i')
                (advanced g.y_bottom y_delta j) i' j, (i' : Int), (j : Int)) := by
  intro n
  induction n with
  | zero =>
    intro i hi post
    rw [cols_loop_done g maxiter painter x_delta y_delta i _ _ (by omega)]
    simp
  | succ n ih =>
    intro i hi post
    have hilt : i < COLS := by omega
    have hrs : (List.range' i (n + 1)).flatMap
          (fun i' => (List.range ROWS).flatMap (resp i')) ++ post
        = (List.range' 0 ROWS).flatMap (resp i)
          ++ ((List.range' (i + 1) n).flatMap
              (fun i' => (List.range ROWS).flatMap (resp i')) ++ post) := by
      rw [List.range'_succ, List.flatMap_cons, List.append_assoc, List.range_eq_range']
    obtain ⟨r1, r2, _⟩ := rows_loop_covering g maxiter painter y_delta
      (advanced g.x_left x_delta i) i (resp i) hp hilt
      (fun c j hj => hcov c i j hilt hj) ROWS 0 (by omega) g.y_bottom
      ((List.range' (i + 1) n).flatMap
        (fun i' => (List.range ROWS).flatMap (resp i')) ++ post)
    have r3 := rows_loop_calls g maxiter painter y_delta
      (advanced g.x_left x_delta i) i (resp i) hp hilt
      (fun c j hj => hcov c i j hilt hj) ROWS 0 (by omega)
      ((List.range' (i + 1) n).flatMap
        (fun i' => (List.range ROWS).flatMap (resp i')) ++ post)
    have hstart : advanced g.y_bottom y_delta 0 = g.y_bottom := rfl
    rw [hstart] at r3
    have hnext : advanced g.x_left x_delta i + x_delta
        = advanced g.x_left x_delta (i + 1) := rfl
    rw [hrs, cols_loop_step g maxiter painter x_delta y_delta i _ _ hilt r1, r2]
    simp only [Render.andThen, List.range'_succ, List.flatMap_cons]
    rw [r3, hnext, ih (i + 1) (by omega) post, List.range_eq_range']

/-- The calls of a whole pass, when the device delivers every frame: cell `(i, j)`
is plotted with the colour computed from the loop variables `loop_point g i j`. -/
theorem mandelbrot_calls (g : Globals) (maxiter painter : Int)
    (resp : Nat → Nat → List WriteResult)
    (hp : painter = COLOUR_SCALED ∨ painter = COLOUR_MOD ∨ painter = COLOUR_TEST)
    (hcov : ∀ (c : Nat) (i j : Nat), i < COLS → j < ROWS →
      covers (frame c (i : Int) (j : Int)).length (resp i j)) :
    (mandelbrot g maxiter painter 0 (pass_responses resp)).render.calls
      = (List.range COLS).flatMap fun (i : Nat) =>
          (List.range ROWS).map fun (j : Nat) =>
            (plotted painter maxiter (loop_point g i j).1 (loop_point g i j).2 i j,
              (i : Int), (j : Int)) := by
  have h := cols_loop_calls g maxiter painter
    ((g.x_right - g.x_left) / (COLS : ℚ)) ((g.y_top - g.y_bottom) / (ROWS : ℚ))
    resp hp hcov COLS 0 (by omega) []
  have hstart : advanced g.x_left ((g.x_right - g.x_left) / (COLS : ℚ)) 0 = g.x_left := rfl
  rw [List.append_nil, ← List.range_eq_range', hstart] at h
  rw [mandelbrot_rendering]
  exact h

/-- The call for cell `(i, j)` is call number `i * ROWS + j` of the pass. -/
theorem mandelbrot_call_at (g : Globals) (maxiter painter : Int)
    (resp : Nat → Nat → List WriteResult)
    (hp : painter = COLOUR_SCALED ∨ painter = COLOUR_MOD ∨ painter = COLOUR_TEST)
    (hcov : ∀ (c : Nat) (i j : Nat), i < COLS → j < ROWS →
      covers (frame c (i : Int) (j : Int)).length (resp i j))
    (i j : Nat) (hi : i < COLS) (hj : j < ROWS) :
    (mandelbrot g maxiter painter 0 (pass_responses resp)).render.calls[i * ROWS + j]?
      = some (plotted painter maxiter (loop_point g i j).1 (loop_point g i j).2 i j,
          (i : Int), (j : Int)) := by
  have hlt : i * ROWS + j < COLS * ROWS := by
    have : (i + 1) * ROWS ≤ COLS * ROWS := Nat.mul_le_mul_right _ hi
    rw [Nat.succ_mul] at this
    omega
  have h1 : (i * ROWS + j) / ROWS = i := by
    rw [Nat.add_comm, Nat.add_mul_div_right _ _ (by decide), Nat.div_eq_of_lt hj, Nat.zero_add]
  have h2 : (i * ROWS + j) % ROWS = j := by
    rw [Nat.add_comm, Nat.add_mul_mod_self_right, Nat.mod_eq_of_lt hj]
  rw [mandelbrot_calls g maxiter painter resp hp hcov,
    flatMap_range_blocks (fun (i j : Nat) =>
      (plotted painter maxiter (loop_point g i j).1 (loop_point g i j).2 i j,
        (i : Int), (j : Int))) ROWS (by decide) COLS,
    List.getElem?_map, List.getElem?_range hlt]
  simp only [Option.map_some', h1, h2]

/-- The first system call of `plot_point` asks for the whole frame from offset 0. -/
theorem plot_point_first_write (u : Int) (c : Nat) (x y : Int) (r : WriteResult)
    (rs : List WriteResult) (hc : c < 256) (hx : isInt32 x) (hy : isInt32 y) :
    (plot_point u c x y (r :: rs)).trace.head?
      = some (Event.write 0 ((frame c x y).length : Int) r) := by
  have hs := stage_eq c x y hc hx hy
  have hlen := frame_length_le c x y hx hy
  have hnot : ¬ (((frame c x y).length : Int) ≥ 256) := by omega
  simp only [plot_point, hs, hnot, if_false]
  cases r with
  | wrote n =>
    simp only [write_loop]
    split <;> simp
  | failed e =>
    simp only [write_loop]
    split
    · split <;> simp
    · simp

/-- The inner loop starts with the `plot_point` call of its first cell. -/
theorem rows_loop_first (g : Globals) (maxiter painter : Int) (y_delta x0 : ℚ) (i j : Nat)
    (y0 : ℚ) (rs : List WriteResult) (c : Nat) (hj : j < ROWS)
    (hc : pick_colour painter maxiter (escape_loop x0 y0 maxiter 0 0 0) i j = Except.ok c) :
    (rows_loop g maxiter painter y_delta x0 i j y0 rs).calls.head?
        = some (c, (i : Int), (j : Int))
      ∧ ∃ t : List Event, (rows_loop g maxiter painter y_delta x0 i j y0 rs).trace
          = (plot_point g.usleep_time c (i : Int) (j : Int) rs).trace ++ t := by
  rw [rows_loop]
  simp only [hj, if_true, hc]
  split
  · exact ⟨rfl, ⟨_, rfl⟩⟩
  · exact ⟨rfl, ⟨[], by simp⟩⟩

/-- The outer loop starts with the first `plot_point` call of its first column. -/
theorem cols_loop_first (g : Globals) (maxiter painter : Int) (x_delta y_delta : ℚ) (i : Nat)
    (x0 : ℚ) (rs : List WriteResult) (call : Byte × Int × Int) (hi : i < COLS)
    (hcall : (rows_loop g maxiter painter y_delta x0 i 0 g.y_bottom rs).calls.head?
      = some call) :
    (cols_loop g maxiter painter x_delta y_delta i x0 rs).calls.head? = some call
      ∧ ∃ t : List Event, (cols_loop g maxiter painter x_delta y_delta i x0 rs).trace
          = (rows_loop g maxiter painter y_delta x0 i 0 g.y_bottom rs).trace ++ t := by
  rw [cols_loop]
  simp only [hi, if_true]
  split
  · refine ⟨?_, ⟨_, rfl⟩⟩
    simp only [Render.andThen]
    rw [List.head?_append, hcall]
    rfl
  · exact ⟨hcall, ⟨[], by simp⟩⟩

theorem frame_origin : frame 49 0 0 = [27, 91, 51, 49, 109, 27, 91, 48, 59, 48, 88] := by
  have h := formatBytes_plot_eq_frame 49 0 0 (by decide)
  rw [← h]
  simp [formatBytes, plot_fmt, fmtDec, decDigits]

theorem frame_centre : frame 48 160 120
    = [27, 91, 51, 48, 109, 27, 91, 49, 54, 48, 59, 49, 50, 48, 88] := by
  have h := formatBytes_plot_eq_frame 48 160 120 (by decide)
  rw [← h]
  simp [formatBytes, plot_fmt, fmtDec, decDigits]

/-- The orbit of `c = -3/4` stays on the real segment `[-3/4, 0]`. -/
theorem orbit_centre_bounded : ∀ k : Nat,
    (orbit (-3 / 4) 0 k).2 = 0 ∧ -3 / 4 ≤ (orbit (-3 / 4) 0 k).1
      ∧ (orbit (-3 / 4) 0 k).1 ≤ 0 := by
  intro k
  induction k with
  | zero => simp only [orbit]; norm_num
  | succ k ih =>
    obtain ⟨h2, hlo, hhi⟩ := ih
    simp only [orbit, h2]
    refine ⟨by ring, by nlinarith, by nlinarith⟩

theorem orbit_centre_normSq (k : Nat) : normSq (orbit (-3 / 4) 0 k) < 4 := by
  obtain ⟨h2, hlo, hhi⟩ := orbit_centre_bounded k
  simp only [normSq, h2]
  nlinarith

/-- When no orbit point reaches `|z|^2 ≥ 4` the loop runs to the cap. -/
theorem escape_loop_bounded_orbit (x0 y0 : ℚ) (maxiter : Int) (h0 : 0 ≤ maxiter)
    (hb : ∀ k, normSq (orbit x0 y0 k) < 4) :
    ((escape_loop x0 y0 maxiter 0 0 0 : Nat) : Int) = maxiter := by
  obtain ⟨hle, _, hstop⟩ := escape_loop_spec x0 y0 maxiter h0
  by_contra hne
  have hlt : ((escape_loop x0 y0 maxiter 0 0 0 : Nat) : Int) < maxiter := by omega
  exact absurd (hstop hlt) (not_le.mpr (hb _))

theorem pick_colour_scaled_capped (maxiter : Int) (iter i j : Nat)
    (h : maxiter ≤ (iter : Int)) :
    pick_colour COLOUR_SCALED maxiter iter i j = Except.ok 48 := by
  simp only [pick_colour, pick_index_scaled_ge maxiter iter i j h]
  exact (palette_at_ok 7 (by decide) (by decide)).1

theorem pick_colour_test (maxiter : Int) (iter i j : Nat) :
    pick_colour COLOUR_TEST maxiter iter i j = Except.ok (text_palette.getD ((i + j) % 7) 0)
      ∧ text_palette.getD ((i + j) % 7) 0 ≠ 48
      ∧ text_palette[(i + j) % 7]? = some (text_palette.getD ((i + j) % 7) 0) := by
  have hlt : (i + j) % 7 < 7 := Nat.mod_lt _ (by decide)
  have hp := palette_at_ok (((i + j) % 7 : Nat) : Int) (by omega) (by omega)
  simp only [Int.toNat_ofNat] at hp
  refine ⟨by simp only [pick_colour, pick_index_test]; exact hp.1, ?_, ?_⟩
  · intro h48
    have := hp.2.2.1.mp h48
    omega
  · have hlen : (i + j) % 7 < text_palette.length := by
      have : text_palette.length = 8 := rfl
      omega
    rw [List.getD_eq_getElem?_getD, List.getElem?_eq_getElem hlen]
    rfl

theorem loop_point_eq_cell_point (g : Globals) (i j : Nat) :
    loop_point g i j = cell_point g i j := by
  simp only [loop_point, cell_point, advanced_eq, COLS, ROWS]
  norm_num

theorem cell_of_cell_point (g : Globals) (i j : Nat)
    (hx : g.x_left ≠ g.x_right) (hy : g.y_bottom ≠ g.y_top) :
    cell_of_point g (cell_point g i j) = ((i : ℚ), (j : ℚ)) := by
  have hdx : (g.x_right - g.x_left) / 320 ≠ 0 := by
    have : g.x_right - g.x_left ≠ 0 := sub_ne_zero.mpr (Ne.symm hx)
    positivity
  have hdy : (g.y_top - g.y_bottom) / 240 ≠ 0 := by
    have : g.y_top - g.y_bottom ≠ 0 := sub_ne_zero.mpr (Ne.symm hy)
    positivity
  simp only [cell_of_point, cell_point, add_sub_cancel_left]
  rw [mul_div_assoc, div_self hdx, mul_div_assoc, div_self hdy]
  simp

/-! ## Lemmas on the exit statuses of whole runs -/

/-- C1: for a colour byte `c` and 32-bit ints `x`, `y`, `plot_point` stages exactly
the bytes `ESC [ 3 c m ESC [ dec(x) ; dec(y) X`; `buf_in_use` is the length of that
sequence, the NUL that `snprintf` appends lies behind it and is not counted, the
first `write` requests the whole frame from offset 0, and for `c = '1'`,
`x = y = 0` the frame is the 11 bytes `ESC [ 3 1 m ESC [ 0 ; 0 X`. -/
theorem plot_point_stages_frame (c : Nat) (x y : Int) (hc : c < 256)
    (hx : isInt32 x) (hy : isInt32 y) :
    (stage c x y).1.take (frame c x y).length
        = [27, 91, 51, c, 109, 27, 91] ++ dec x ++ [59] ++ dec y ++ [88]
      ∧ (stage c x y).2 = ((frame c x y).length : Int)
      ∧ (stage c x y).1 = frame c x y ++ [0]
      ∧ (∀ (u : Int) (r : WriteResult) (rs : List WriteResult),
          (plot_point u c x y (r :: rs)).trace.head?
            = some (Event.write 0 ((frame c x y).length : Int) r))
      ∧ frame 49 0 0 = [27, 91, 51, 49, 109, 27, 91, 48, 59, 48, 88] := by
  have hs := stage_eq c x y hc hx hy
  have hlen := frame_length_le c x y hx hy
  refine ⟨?_, ?_, ?_, ?_, ?_⟩
  · rw [hs]
    exact List.take_left' rfl
  · rw [hs]
  · rw [hs]
  · intro u r rs
    have hnot : ¬ (((frame c x y).length : Int) ≥ 256) := by omega
    simp only [plot_point, hs, hnot, if_false]
    cases r with
    | wrote n =>
      simp only [write_loop]
      split <;> simp
    | failed e =>
      simp only [write_loop]
      split
      · split <;> simp
      · simp
  · have h := formatBytes_plot_eq_frame 49 0 0 (by decide)
    rw [← h]
    simp [formatBytes, plot_fmt, fmtDec, decDigits]

theorem plot_point_stages_frame_witness :
    (stage 55 319 (-7)).1.take (frame 55 319 (-7)).length
        = [27, 91, 51, 55, 109, 27, 91] ++ dec 319 ++ [59] ++ dec (-7) ++ [88] :=
  (plot_point_stages_frame 55 319 (-7) (by decide) (by decide) (by decide)).1

/-- C2: for a frame of `plot_point` and a response list made of successes and
`EAGAIN` failures whose success counts add up to the frame length exactly at the
last response (each count is then at most the requested length), `plot_point`
returns normally, consumes every response and asks for none afterwards; attempt
`i` requests the frame from the offset accepted so far to its end and is followed
by one delay; and the bytes accepted by the device are the frame, in order. -/
theorem plot_point_delivers_frame (u : Int) (c : Nat) (x y : Int) (rs : List WriteResult)
    (hc : c < 256) (hx : isInt32 x) (hy : isInt32 y)
    (hret : ∀ r ∈ rs, retryable r)
    (hsum : accepted rs = (frame c x y).length)
    (hlast : ∀ k, k < rs.length → accepted (rs.take k) < (frame c x y).length) :
    (plot_point u c x y rs).outcome = Outcome.returned
      ∧ (plot_point u c x y rs).rest = []
      ∧ (plot_point u c x y rs).trace = attempts u (frame c x y).length rs rs.length
      ∧ (plot_point u c x y rs).wire = frame c x y := by
  have hrun := plot_point_covering u c x y rs [] hc hx hy ⟨hret, hsum, hlast⟩
  rw [List.append_nil] at hrun
  rw [hrun]
  exact ⟨rfl, rfl, rfl, rfl⟩

theorem plot_point_delivers_frame_witness :
    (plot_point 1200 49 0 0
        [WriteResult.wrote 4, WriteResult.failed EAGAIN, WriteResult.wrote 0,
          WriteResult.wrote 7]).wire = frame 49 0 0 :=
  (plot_point_delivers_frame 1200 49 0 0
    [WriteResult.wrote 4, WriteResult.failed EAGAIN, WriteResult.wrote 0, WriteResult.wrote 7]
    (by decide) (by decide) (by decide) (by decide) (by decide) (by decide)).2.2.2

/-- C3: when the responses before a failure with an `errno` other than `EAGAIN`
are successes and `EAGAIN` failures that have not yet completed the frame,
`plot_point` exits with status 3 at that attempt: its trace is the
`pre.length + 1` attempts up to and including the failing one, each with its
delay, and the responses after the failure are never consumed. -/
theorem plot_point_fatal_write (u : Int) (c : Nat) (x y : Int)
    (pre post : List WriteResult) (e : Nat)
    (hc : c < 256) (hx : isInt32 x) (hy : isInt32 y)
    (he : e ≠ EAGAIN)
    (hret : ∀ r ∈ pre, retryable r)
    (hshort : ∀ k, k ≤ pre.length → accepted (pre.take k) ≠ (frame c x y).length) :
    (plot_point u c x y (pre ++ WriteResult.failed e :: post)).outcome = Outcome.exited 3
      ∧ (plot_point u c x y (pre ++ WriteResult.failed e :: post)).rest = post
      ∧ (plot_point u c x y (pre ++ WriteResult.failed e :: post)).trace
          = attempts u (frame c x y).length (pre ++ WriteResult.failed e :: post)
              (pre.length + 1) := by
  rw [plot_point_fatal u c x y pre post e hc hx hy he hret hshort]
  exact ⟨rfl, rfl, rfl⟩

theorem plot_point_fatal_write_witness :
    (plot_point 1200 49 0 0
        ([WriteResult.wrote 4, WriteResult.failed EAGAIN] ++ WriteResult.failed 5
          :: [WriteResult.wrote 7])).outcome = Outcome.exited 3 :=
  (plot_point_fatal_write 1200 49 0 0 [WriteResult.wrote 4, WriteResult.failed EAGAIN]
    [WriteResult.wrote 7] 5
    (by decide) (by decide) (by decide) (by decide) (by decide) (by decide)).1

/-- C4: in the rendering mode (`iteratively = 0`) with a recognised policy and a
device that delivers every frame (for each cell, successes and `EAGAIN` failures
that cover the frame of that cell), `mandelbrot` returns, and the coordinates it
passes to `plot_point` are exactly `(0,0), (0,1), ..., (0,239), (1,0), ...,
(319,239)`: the call number `i * 240 + j` is the one for cell `(i, j)`, there are
76800 calls and no cell occurs twice. -/
theorem mandelbrot_plots_each_cell_once (g : Globals) (maxiter painter : Int)
    (resp : Nat → Nat → List WriteResult)
    (hp : painter = COLOUR_SCALED ∨ painter = COLOUR_MOD ∨ painter = COLOUR_TEST)
    (hcov : ∀ (c i j : Nat), i < COLS → j < ROWS →
      covers (frame c (i : Int) (j : Int)).length (resp i j)) :
    (mandelbrot g maxiter painter 0 (pass_responses resp)).render.outcome = Outcome.returned
      ∧ (mandelbrot g maxiter painter 0 (pass_responses resp)).render.calls.map coords
          = grid_cells
      ∧ (∀ i j : Nat, i < 320 → j < 240 →
          ((mandelbrot g maxiter painter 0 (pass_responses resp)).render.calls.map
            coords)[i * 240 + j]? = some ((i : Int), (j : Int)))
      ∧ (mandelbrot g maxiter painter 0 (pass_responses resp)).render.calls.length = 76800
      ∧ ((mandelbrot g maxiter painter 0 (pass_responses resp)).render.calls.map
          coords).Nodup := by
  have h := cols_loop_covering g maxiter painter
    ((g.x_right - g.x_left) / (COLS : ℚ)) ((g.y_top - g.y_bottom) / (ROWS : ℚ))
    resp hp hcov COLS 0 (by omega) g.x_left []
  rw [List.append_nil, ← List.range_eq_range'] at h
  have hm : (mandelbrot g maxiter painter 0 (pass_responses resp)).render
      = cols_loop g maxiter painter ((g.x_right - g.x_left) / (COLS : ℚ))
          ((g.y_top - g.y_bottom) / (ROWS : ℚ)) 0 g.x_left
          ((List.range COLS).flatMap fun i' => (List.range ROWS).flatMap (resp i')) := by
    simp only [mandelbrot, pass_responses, ne_eq, not_true_eq_false, if_false]
  have hcells : (mandelbrot g maxiter painter 0 (pass_responses resp)).render.calls.map coords
      = grid_cells := by
    rw [hm, h.2.2]
    rfl
  refine ⟨by rw [hm]; exact h.1, hcells, ?_, ?_, ?_⟩
  · intro i j hi hj
    rw [hcells]
    exact grid_cells_getElem? i j hi hj
  · have := congrArg List.length hcells
    rw [List.length_map, grid_cells_length] at this
    exact this
  · rw [hcells]
    exact grid_cells_nodup

theorem mandelbrot_plots_each_cell_once_witness :
    (mandelbrot defaults 100 COLOUR_MOD 0
        (pass_responses fun i j =>
          [WriteResult.wrote (frame 0 (i : Int) (j : Int)).length])).render.calls.length
      = 76800 :=
  (mandelbrot_plots_each_cell_once defaults 100 COLOUR_MOD
    (fun i j => [WriteResult.wrote (frame 0 (i : Int) (j : Int)).length])
    (Or.inr (Or.inl rfl))
    (fun c i j _ _ =>
      ⟨fun r hr => Or.inr ⟨_, List.mem_singleton.mp hr⟩,
        by simp [accepted, frame],
        fun k hk => by
          have hk0 : k = 0 := by simpa using hk
          rw [hk0]
          simp [accepted, frame]⟩)).2.2.2.1

/-- C5 (arithmetic exact, `maxiter ≥ 0`): the escape loop ends with
`0 ≤ iter ≤ maxiter`; if `n` is the least `k` with `|z_k|^2 ≥ 4` then
`iter = min(maxiter, n)`; if no `k ≤ maxiter` has `|z_k|^2 ≥ 4` then
`iter = maxiter`; and the in-set test `iter >= maxiter` of the code holds exactly
when `iter = maxiter`, which is exactly when the Modulo and the Scaled policy pick
the background index 7. -/
theorem escape_count_is_capped_first_exit (x0 y0 : ℚ) (maxiter : Int) (h0 : 0 ≤ maxiter) :
    (0 : Int) ≤ ((escape_loop x0 y0 maxiter 0 0 0 : Nat) : Int)
      ∧ ((escape_loop x0 y0 maxiter 0 0 0 : Nat) : Int) ≤ maxiter
      ∧ (∀ n : Nat, IsLeast {k : Nat | 4 ≤ normSq (orbit x0 y0 k)} n →
          ((escape_loop x0 y0 maxiter 0 0 0 : Nat) : Int) = min maxiter (n : Int))
      ∧ ((∀ k : Nat, (k : Int) ≤ maxiter → normSq (orbit x0 y0 k) < 4) →
          ((escape_loop x0 y0 maxiter 0 0 0 : Nat) : Int) = maxiter)
      ∧ (maxiter ≤ ((escape_loop x0 y0 maxiter 0 0 0 : Nat) : Int)
          ↔ ((escape_loop x0 y0 maxiter 0 0 0 : Nat) : Int) = maxiter)
      ∧ (∀ i j : Nat,
          (pick_index COLOUR_MOD maxiter (escape_loop x0 y0 maxiter 0 0 0) i j = Except.ok 7
            ↔ ((escape_loop x0 y0 maxiter 0 0 0 : Nat) : Int) = maxiter)
          ∧ (pick_index COLOUR_SCALED maxiter (escape_loop x0 y0 maxiter 0 0 0) i j
              = Except.ok 7
            ↔ ((escape_loop x0 y0 maxiter 0 0 0 : Nat) : Int) = maxiter)) := by
  obtain ⟨hle, hbelow, hstop⟩ := escape_loop_spec x0 y0 maxiter h0
  generalize escape_loop x0 y0 maxiter 0 0 0 = iter at hle hbelow hstop
  refine ⟨by omega, hle, ?_, ?_, ⟨fun h => by omega, fun h => by omega⟩, ?_⟩
  · intro n hn
    have hn4 : 4 ≤ normSq (orbit x0 y0 n) := hn.1
    have hleast : ∀ k, 4 ≤ normSq (orbit x0 y0 k) → n ≤ k := fun k hk => hn.2 hk
    have h1 : iter ≤ n := by
      by_contra hcon
      exact absurd hn4 (not_le.mpr (hbelow n (by omega)))
    by_cases hcap : (iter : Int) < maxiter
    · have := hleast iter (hstop hcap)
      have hin : iter = n := by omega
      rw [hin] at hcap ⊢
      rw [min_eq_right (by omega)]
    · have hcap' : (iter : Int) = maxiter := by omega
      rw [min_eq_left (by omega)]
      exact hcap'
  · intro hall
    by_contra hcon
    have hlt : (iter : Int) < maxiter := by omega
    exact absurd (hstop hlt) (not_le.mpr (hall iter hle))
  · intro i j
    constructor
    · rw [pick_index_mod]
      by_cases hcap : maxiter ≤ (iter : Int)
      · simp only [hcap, if_true, true_iff]
        omega
      · simp only [hcap, if_false, Except.ok.injEq]
        constructor
        · intro h; omega
        · intro h; omega
    · by_cases hcap : maxiter ≤ (iter : Int)
      · rw [pick_index_scaled_ge maxiter iter i j hcap]
        simp only [true_iff]
        omega
      · have hs := pick_index_scaled_lt maxiter iter i j (by omega)
        rw [hs.1]
        simp only [Except.ok.injEq]
        constructor
        · intro h; omega
        · intro h; omega

theorem escape_count_is_capped_first_exit_witness :
    ((escape_loop (-5 / 2) (-1) 100 0 0 0 : Nat) : Int) ≤ 100 :=
  (escape_count_is_capped_first_exit (-5 / 2) (-1) 100 (by decide)).2.1

/-- C6, as stated, fails at `maxiter = 1`: for `c = 3` (`|c| = 3 > 2`) the escape
count is 1, which is not below `maxiter`, and both the Scaled and the Modulo
policy colour the point with the background symbol `'0'`. -/
theorem outside_point_capped_at_maxiter_one :
    4 < normSq ((3 : ℚ), (0 : ℚ))
      ∧ escape_loop 3 0 1 0 0 0 = 1
      ∧ ¬ (((escape_loop 3 0 1 0 0 0 : Nat) : Int) < 1)
      ∧ pick_colour COLOUR_SCALED 1 (escape_loop 3 0 1 0 0 0) 0 0 = Except.ok 48
      ∧ pick_colour COLOUR_MOD 1 (escape_loop 3 0 1 0 0 0) 0 0 = Except.ok 48 := by
  have h : escape_loop 3 0 1 0 0 0 = 1 :=
    escape_loop_outside 3 0 1 (by norm_num) (by norm_num)
  rw [h]
  refine ⟨by norm_num [normSq], rfl, by decide, ?_, ?_⟩
  · have hi := pick_index_scaled_ge 1 1 0 0 (by decide)
    simp only [pick_colour, hi]
    exact (palette_at_ok 7 (by decide) (by decide)).1
  · have hi := pick_index_mod 1 1 0 0
    simp only [pick_colour, hi]
    exact (palette_at_ok 7 (by decide) (by decide)).1

/-- C6, amended (arithmetic exact): for every `c` with `|c|^2 > 4` and every
`maxiter ≥ 2` the escape count is 1, hence below `maxiter`, and neither the Scaled
nor the Modulo policy colours the point with the background symbol `'0'`. -/
theorem outside_point_escapes_below_cap (x0 y0 : ℚ) (maxiter : Int) (i j : Nat)
    (hc : 4 < normSq (x0, y0)) (hm : 2 ≤ maxiter) :
    escape_loop x0 y0 maxiter 0 0 0 = 1
      ∧ ((escape_loop x0 y0 maxiter 0 0 0 : Nat) : Int) < maxiter
      ∧ (∃ c : Nat, pick_colour COLOUR_SCALED maxiter (escape_loop x0 y0 maxiter 0 0 0) i j
            = Except.ok c ∧ c ≠ 48)
      ∧ (∃ c : Nat, pick_colour COLOUR_MOD maxiter (escape_loop x0 y0 maxiter 0 0 0) i j
            = Except.ok c ∧ c ≠ 48) := by
  have h : escape_loop x0 y0 maxiter 0 0 0 = 1 :=
    escape_loop_outside x0 y0 maxiter hc (by omega)
  rw [h]
  have hlt : ((1 : Nat) : Int) < maxiter := by omega
  refine ⟨rfl, hlt, ?_, ?_⟩
  · have hs := pick_index_scaled_lt maxiter 1 i j hlt
    have hp := palette_at_ok _ hs.2.1 (by omega)
    refine ⟨_, by simp only [pick_colour, hs.1]; exact hp.1, ?_⟩
    intro h48
    have := hp.2.2.1.mp h48
    omega
  · have hi := pick_index_mod maxiter 1 i j
    have hnot : ¬ (maxiter ≤ ((1 : Nat) : Int)) := by omega
    simp only [hnot, if_false] at hi
    have hp := palette_at_ok (((1 % 7 : Nat) : Int)) (by omega) (by omega)
    refine ⟨_, by simp only [pick_colour, hi]; exact hp.1, ?_⟩
    intro h48
    have := hp.2.2.1.mp h48
    omega

theorem outside_point_escapes_below_cap_witness :
    escape_loop (-5 / 2) (-1) 100 0 0 0 = 1 :=
  (outside_point_escapes_below_cap (-5 / 2) (-1) 100 0 0 (by norm_num [normSq])
    (by decide)).1

/-- C7 (Scaled policy, palette size 8, arithmetic exact): for `maxiter ≥ 1` and
`0 ≤ count ≤ maxiter` the switch yields an index in `[0, 7]` without a failed
assertion; it is 0 for `count = 0` and 7 for `count = maxiter`; for
`count < maxiter` it is `floor(0.5 + count * 6 / maxiter)`, at most 6; and the
palette read at that index is in bounds. -/
theorem scaled_index_in_range (maxiter : Int) (count i j : Nat)
    (hm : 1 ≤ maxiter) (hc : (count : Int) ≤ maxiter) :
    ∃ idx : Int, pick_index COLOUR_SCALED maxiter count i j = Except.ok idx
      ∧ 0 ≤ idx ∧ idx ≤ (text_palette.length : Int) - 1
      ∧ (count = 0 → idx = 0)
      ∧ ((count : Int) = maxiter → idx = (text_palette.length : Int) - 1)
      ∧ ((count : Int) < maxiter →
          idx = ⌊(1 / 2 : ℚ) + (count : ℚ) * 6 / (maxiter : ℚ)⌋
            ∧ idx ≤ (text_palette.length : Int) - 2)
      ∧ ∃ c : Nat, palette_at idx = Except.ok c
          ∧ text_palette[idx.toNat]? = some c := by
  have hlen : (text_palette.length : Int) = 8 := rfl
  rw [hlen]
  by_cases hcap : (count : Int) < maxiter
  · have hs := pick_index_scaled_lt maxiter count i j hcap
    have hp := palette_at_ok _ hs.2.1 (by omega)
    refine ⟨_, hs.1, hs.2.1, by omega, ?_, fun h => by omega, fun _ => ⟨rfl, by omega⟩,
      _, hp.1, ?_⟩
    · intro h0
      rw [h0]
      norm_num
    · have hlt : (⌊(1 / 2 : ℚ) + (count : ℚ) * 6 / (maxiter : ℚ)⌋).toNat
          < text_palette.length := by
        have : text_palette.length = 8 := rfl
        omega
      rw [List.getD_eq_getElem?_getD, List.getElem?_eq_getElem hlt]
      rfl
  · have hge : maxiter ≤ (count : Int) := by omega
    have hp := palette_at_ok 7 (by decide) (by decide)
    refine ⟨7, pick_index_scaled_ge maxiter count i j hge, by omega, by omega,
      fun h0 => by omega, fun _ => by omega, fun h => by omega, _, hp.1, by decide⟩

theorem scaled_index_in_range_witness :
    ∃ idx : Int, pick_index COLOUR_SCALED 100 37 0 0 = Except.ok idx
      ∧ 0 ≤ idx ∧ idx ≤ (text_palette.length : Int) - 1
      ∧ (37 = 0 → idx = 0)
      ∧ (((37 : Nat) : Int) = 100 → idx = (text_palette.length : Int) - 1)
      ∧ (((37 : Nat) : Int) < 100 →
          idx = ⌊(1 / 2 : ℚ) + ((37 : Nat) : ℚ) * 6 / ((100 : Int) : ℚ)⌋
            ∧ idx ≤ (text_palette.length : Int) - 2)
      ∧ ∃ c : Nat, palette_at idx = Except.ok c
          ∧ text_palette[idx.toNat]? = some c :=
  scaled_index_in_range 100 37 0 0 (by decide) (by decide)


/-- C8 (arithmetic exact): under the Scaled and under the Modulo policy, for
every `maxiter` (so for `maxiter ≥ 1`) and every count, the switch yields an index
and a palette symbol;
the index is the last one (7) and the symbol is the last palette entry `'0'`
exactly when `count ≥ maxiter`, and a count below `maxiter` gets one of the
symbols `'1'` to `'7'`. -/
theorem background_iff_count_reaches_cap (painter maxiter : Int) (count i j : Nat)
    (hp : painter = COLOUR_SCALED ∨ painter = COLOUR_MOD) :
    ∃ (idx : Int) (c : Nat), pick_index painter maxiter count i j = Except.ok idx
      ∧ pick_colour painter maxiter count i j = Except.ok c
      ∧ text_palette[idx.toNat]? = some c
      ∧ (idx = (text_palette.length : Int) - 1 ↔ maxiter ≤ (count : Int))
      ∧ (c = 48 ↔ maxiter ≤ (count : Int))
      ∧ text_palette.getLast? = some 48
      ∧ ((count : Int) < maxiter → c ∈ [49, 50, 51, 52, 53, 54, 55]) := by
  have hlen : (text_palette.length : Int) = 8 := rfl
  rw [hlen]
  have key : ∀ idx : Int, pick_index painter maxiter count i j = Except.ok idx →
      0 ≤ idx → idx ≤ 7 → (idx = 7 ↔ maxiter ≤ (count : Int)) →
      ∃ (idx : Int) (c : Nat), pick_index painter maxiter count i j = Except.ok idx
        ∧ pick_colour painter maxiter count i j = Except.ok c
        ∧ text_palette[idx.toNat]? = some c
        ∧ (idx = 8 - 1 ↔ maxiter ≤ (count : Int))
        ∧ (c = 48 ↔ maxiter ≤ (count : Int))
        ∧ text_palette.getLast? = some 48
        ∧ ((count : Int) < maxiter → c ∈ [49, 50, 51, 52, 53, 54, 55]) := by
    intro idx hidx h0 h7 hiff
    have hpal := palette_at_ok idx h0 h7
    have hlt : idx.toNat < text_palette.length := by
      have : text_palette.length = 8 := rfl
      omega
    refine ⟨idx, _, hidx, by simp only [pick_colour, hidx]; exact hpal.1, ?_, ?_,
      hpal.2.2.1.trans hiff, rfl, ?_⟩
    · rw [List.getD_eq_getElem?_getD, List.getElem?_eq_getElem hlt]
      rfl
    · rw [← hiff]
      constructor <;> intro h <;> omega
    · intro hcount
      have hidx6 : idx < 7 := by
        by_contra hcon
        have : idx = 7 := by omega
        have := hiff.mp this
        omega
      have hb := hpal.2.2.2 hidx6
      generalize text_palette.getD idx.toNat 0 = c at hb
      obtain ⟨hb1, hb2⟩ := hb
      interval_cases c <;> simp
  rcases hp with hp | hp
  · rw [hp] at key ⊢
    by_cases hcap : maxiter ≤ (count : Int)
    · exact key 7 (pick_index_scaled_ge maxiter count i j hcap) (by omega) (by omega)
        ⟨fun _ => hcap, fun _ => rfl⟩
    · have hs := pick_index_scaled_lt maxiter count i j (by omega)
      exact key _ hs.1 hs.2.1 (by omega) ⟨fun h => by omega, fun h => absurd h hcap⟩
  · rw [hp] at key ⊢
    have hi := pick_index_mod maxiter count i j
    by_cases hcap : maxiter ≤ (count : Int)
    · simp only [hcap, if_true] at hi
      exact key 7 hi (by omega) (by omega) ⟨fun _ => hcap, fun _ => rfl⟩
    · simp only [hcap, if_false] at hi
      exact key _ hi (by omega) (by omega) ⟨fun h => by omega, fun h => absurd h hcap⟩

theorem background_iff_count_reaches_cap_witness :
    ∃ (idx : Int) (c : Nat), pick_index COLOUR_MOD 100 9 0 0 = Except.ok idx
      ∧ pick_colour COLOUR_MOD 100 9 0 0 = Except.ok c
      ∧ text_palette[idx.toNat]? = some c
      ∧ (idx = (text_palette.length : Int) - 1 ↔ (100 : Int) ≤ ((9 : Nat) : Int))
      ∧ (c = 48 ↔ (100 : Int) ≤ ((9 : Nat) : Int))
      ∧ text_palette.getLast? = some 48
      ∧ (((9 : Nat) : Int) < 100 → c ∈ [49, 50, 51, 52, 53, 54, 55]) :=
  background_iff_count_reaches_cap COLOUR_MOD 100 9 0 0 (Or.inr rfl)

/-- C9, as stated, fails: with `maxiter = 7` the count `k = 0` is below `maxiter`
and gets index 0, while the count `k + 7 = 7` reaches `maxiter` and gets the
background index 7. -/
theorem modulo_wraparound_fails_at_cap :
    (1 : Int) ≤ 7 ∧ ((0 : Nat) : Int) < 7
      ∧ pick_index COLOUR_MOD 7 0 0 0 = Except.ok 0
      ∧ pick_index COLOUR_MOD 7 (0 + 7) 0 0 = Except.ok 7
      ∧ pick_index COLOUR_MOD 7 0 0 0 ≠ pick_index COLOUR_MOD 7 (0 + 7) 0 0 := by
  have h0 : pick_index COLOUR_MOD 7 0 0 0 = Except.ok 0 := by
    rw [pick_index_mod]; rfl
  have h7 : pick_index COLOUR_MOD 7 (0 + 7) 0 0 = Except.ok 7 := by
    rw [pick_index_mod]; rfl
  refine ⟨by decide, by decide, h0, h7, ?_⟩
  rw [h0, h7]
  intro h
  have := Except.ok.inj h
  omega

/-- C9, amended (Modulo policy, palette size 8): for a count `k < maxiter` (so
`maxiter ≥ 1`), the index chosen for `k` equals the index chosen for `k + 7`
exactly when `k + 7` is still below `maxiter`; both are then `k mod 7`, and
otherwise the index for `k + 7` is the background index 7. -/
theorem modulo_wraparound_below_cap (maxiter : Int) (k i j : Nat)
    (hk : (k : Int) < maxiter) :
    (pick_index COLOUR_MOD maxiter k i j = pick_index COLOUR_MOD maxiter (k + 7) i j
        ↔ ((k + 7 : Nat) : Int) < maxiter)
      ∧ (((k + 7 : Nat) : Int) < maxiter →
          pick_index COLOUR_MOD maxiter (k + 7) i j = Except.ok (((k % 7 : Nat) : Int)))
      ∧ pick_index COLOUR_MOD maxiter k i j = Except.ok (((k % 7 : Nat) : Int))
      ∧ (maxiter ≤ ((k + 7 : Nat) : Int) →
          pick_index COLOUR_MOD maxiter (k + 7) i j = Except.ok 7) := by
  have hnot : ¬ (maxiter ≤ (k : Int)) := by omega
  have hk0 : pick_index COLOUR_MOD maxiter k i j = Except.ok (((k % 7 : Nat) : Int)) := by
    rw [pick_index_mod]
    simp only [hnot, if_false]
  have hk7 : ((k + 7 : Nat) : Int) < maxiter →
      pick_index COLOUR_MOD maxiter (k + 7) i j = Except.ok (((k % 7 : Nat) : Int)) := by
    intro h
    have hnot7 : ¬ (maxiter ≤ ((k + 7 : Nat) : Int)) := by omega
    rw [pick_index_mod]
    simp only [hnot7, if_false, Nat.add_mod_right]
  refine ⟨⟨?_, fun h => by rw [hk0, hk7 h]⟩, hk7, hk0, ?_⟩
  swap
  · intro hge
    rw [pick_index_mod]
    simp only [hge, if_true]
  intro heq
  by_contra hcon
  have hge : maxiter ≤ ((k + 7 : Nat) : Int) := by omega
  rw [hk0, pick_index_mod] at heq
  simp only [hge, if_true] at heq
  have := Except.ok.inj heq
  omega

theorem modulo_wraparound_below_cap_witness :
    pick_index COLOUR_MOD 100 3 0 0 = Except.ok (((3 % 7 : Nat) : Int)) :=
  (modulo_wraparound_below_cap 100 3 0 0 (by decide)).2.2.1


/-- C10, as stated, fails for `iteratively ≠ 0`: with the unrecognised selector
`COLOUR_NA` and `iteratively = 1` the run of `mandelbrot` does not end with exit
status 2; the selector is never inspected, the run is the same as with
`COLOUR_MOD`, and it ends in the zeroing loops. -/
theorem unknown_policy_unchecked_when_iterative :
    COLOUR_NA ≠ COLOUR_SCALED ∧ COLOUR_NA ≠ COLOUR_MOD ∧ COLOUR_NA ≠ COLOUR_TEST
      ∧ (mandelbrot defaults 100 COLOUR_NA 1 []).render.outcome ≠ Outcome.exited 2
      ∧ (mandelbrot defaults 100 COLOUR_NA 1 []).render
          = (mandelbrot defaults 100 COLOUR_MOD 1 []).render
      ∧ (mandelbrot defaults 100 COLOUR_NA 1 []).render
          = ⟨Outcome.fault, [], [], [], []⟩ := by
  have hz := zero_cols_faults ROWS 0 (Nat.zero_add ROWS) defaults.real_val defaults.imag_val
  have hna := mandelbrot_iterative_render defaults 100 COLOUR_NA 1 [] (by decide)
    Outcome.fault hz
  have hmod := mandelbrot_iterative_render defaults 100 COLOUR_MOD 1 [] (by decide)
    Outcome.fault hz
  refine ⟨by decide, by decide, by decide, ?_, ?_, hna⟩
  · rw [hna]
    decide
  · rw [hna, hmod]

/-- C10, amended: in the rendering mode (`iteratively = 0`), for every selector
other than `COLOUR_SCALED`, `COLOUR_MOD` and `COLOUR_TEST`, every `maxiter`, every
state of the globals and every device, `mandelbrot` exits with status 2 at the
first cell: no `plot_point` call, no system call, no byte sent, no response
consumed. -/
theorem unknown_policy_exits_before_first_frame (g : Globals) (maxiter painter : Int)
    (rs : List WriteResult)
    (h1 : painter ≠ COLOUR_SCALED) (h2 : painter ≠ COLOUR_MOD) (h3 : painter ≠ COLOUR_TEST) :
    (mandelbrot g maxiter painter 0 rs).render = ⟨Outcome.exited 2, [], [], [], rs⟩ := by
  exact mandelbrot_unknown_policy g maxiter painter rs h1 h2 h3

theorem unknown_policy_exits_before_first_frame_witness :
    (mandelbrot defaults 100 7 0 [WriteResult.wrote 11]).render
      = ⟨Outcome.exited 2, [], [], [], [WriteResult.wrote 11]⟩ :=
  unknown_policy_exits_before_first_frame defaults 100 7 [WriteResult.wrote 11]
    (by decide) (by decide) (by decide)

/-- C12: for a colour byte and 32-bit `x`, `y` the encoded frame has at most 31
bytes (31 are reached at `x = y = -2147483648`), fewer than the 256 of the staging
buffer; `snprintf` stores all of it followed by the NUL, and `plot_point` never
takes the overflow branch: it does not end with exit status 2, whatever the
device does. -/
theorem frame_fits_staging_buffer (c : Nat) (x y : Int)
    (hc : c < 256) (hx : isInt32 x) (hy : isInt32 y) :
    (stage c x y).2 ≤ 31
      ∧ (stage c x y).2 < 256
      ∧ (stage c x y).2 = ((frame c x y).length : Int)
      ∧ (stage c x y).1 = frame c x y ++ [0]
      ∧ (stage c x y).1 = formatBytes plot_fmt [(c : Int), x, y] ++ [0]
      ∧ (∀ (u : Int) (rs : List WriteResult),
          (plot_point u c x y rs).outcome ≠ Outcome.exited 2)
      ∧ (frame 49 (-2147483648) (-2147483648)).length = 31 := by
  have hs := stage_eq c x y hc hx hy
  have hlen := frame_length_le c x y hx hy
  have hfmt := formatBytes_plot_eq_frame c x y hc
  refine ⟨by rw [hs]; simp only; omega, by rw [hs]; simp only; omega, by rw [hs],
    by rw [hs], by rw [hs, hfmt], ?_, ?_⟩
  · intro u rs
    have hnot : ¬ (((frame c x y).length : Int) ≥ 256) := by omega
    simp only [plot_point, hs, hnot, if_false]
    rcases write_loop_outcome u (frame c x y ++ [0]) rs 0 ((frame c x y).length : Int)
      with h | h | h <;> rw [h] <;> decide
  · have h := formatBytes_plot_eq_frame 49 (-2147483648) (-2147483648) (by decide)
    rw [← h]
    simp [formatBytes, plot_fmt, fmtDec, decDigits]

theorem frame_fits_staging_buffer_witness :
    (stage 55 319 239).2 ≤ 31 :=
  (frame_fits_staging_buffer 55 319 239 (by decide) (by decide) (by decide)).1

/-- C13: in every run of `plot_point` the trace is a sequence of pairs: a write
attempt and, right after it, one delay of `usleep_time`.  So there are as many
delays as write attempts, the event after a write attempt is always that delay
(no two write attempts are adjacent, and none is the last event before the
return or the exit), and the default delay is 1200 microseconds. -/
theorem every_write_is_followed_by_delay (u : Int) (c : Nat) (x y : Int)
    (rs : List WriteResult) :
    (∃ ws : List (Int × Int × WriteResult),
        (plot_point u c x y rs).trace
          = ws.flatMap fun w => [Event.write w.1 w.2.1 w.2.2, Event.usleep u])
      ∧ ((plot_point u c x y rs).trace.filter Event.isDelay).length
          = ((plot_point u c x y rs).trace.filter Event.isWrite).length
      ∧ (∀ (k : Nat) (o n : Int) (r : WriteResult),
          (plot_point u c x y rs).trace[k]? = some (Event.write o n r) →
          (plot_point u c x y rs).trace[k + 1]? = some (Event.usleep u))
      ∧ defaults.usleep_time = 1200 := by
  obtain ⟨ws, hws⟩ := plot_point_paced u c x y rs
  refine ⟨⟨ws, hws⟩, ?_, ?_, rfl⟩
  · rw [hws, (paced_counts u ws).1, (paced_counts u ws).2]
  · intro k o n r h
    rw [hws] at h ⊢
    exact paced_next u ws k o n r h

theorem every_write_is_followed_by_delay_witness :
    (plot_point 1200 49 0 0
        [WriteResult.wrote 4, WriteResult.failed EAGAIN, WriteResult.failed 5]).trace[5]?
      = some (Event.usleep 1200) :=
  (every_write_is_followed_by_delay 1200 49 0 0
    [WriteResult.wrote 4, WriteResult.failed EAGAIN, WriteResult.failed 5]).2.2.1
    4 4 7 (WriteResult.failed 5)
    (by simp [plot_point, stage, snprintf, formatBytes, plot_fmt, fmtDec, decDigits,
      write_loop, EAGAIN])

/-- C14, as stated, fails: the first startup write of `main` asks for the 4 bytes
SPACE ESC `0` `r`, not the 3 bytes ESC `0` `r`, and the second asks for the 4 bytes
ESC `[` `2` `J`, without the NUL of the literal. -/
theorem startup_writes_are_four_bytes_each :
    (main defaults 0 COLOUR_MOD 100 3
        [WriteResult.wrote 4, WriteResult.wrote 4]).startup
      = [Syscall.write [32, 27, 48, 114] (WriteResult.wrote 4), Syscall.usleep 500000,
          Syscall.write [27, 91, 50, 74] (WriteResult.wrote 4), Syscall.usleep 500000]
      ∧ [32, 27, 48, 114] ≠ [27, 48, 114]
      ∧ [27, 91, 50, 74] ≠ [27, 91, 50, 74, 0] :=
  ⟨(main_startup defaults 0 COLOUR_MOD 100 3 (WriteResult.wrote 4) (WriteResult.wrote 4) []
    (by decide)).1, by decide, by decide⟩

/-- C14, amended: with a valid descriptor, before `mandelbrot` is entered (so
before any point frame), `main` requests exactly two startup writes, in this
order: the 4 bytes SPACE ESC `0` `r` (0x20 0x1B 0x30 0x72), then the 4 bytes
ESC `[` `2` `J` (0x1B 0x5B 0x32 0x4A); each is followed by a delay of 500000
microseconds, whatever the device answers. -/
theorem startup_sequence (g : Globals) (iterative painter max_iter fd : Int)
    (r1 r2 : WriteResult) (rs : List WriteResult) (hfd : 0 ≤ fd) :
    (main g iterative painter max_iter fd (r1 :: r2 :: rs)).startup
        = [Syscall.write [32, 27, 48, 114] r1, Syscall.usleep 500000,
            Syscall.write [27, 91, 50, 74] r2, Syscall.usleep 500000]
      ∧ (main g iterative painter max_iter fd (r1 :: r2 :: rs)).render
        = some (mandelbrot g max_iter painter iterative rs).render :=
  main_startup g iterative painter max_iter fd r1 r2 rs hfd

theorem startup_sequence_witness :
    (main defaults 0 COLOUR_MOD 100 3
        [WriteResult.wrote 4, WriteResult.failed EAGAIN, WriteResult.wrote 11]).startup
      = [Syscall.write [32, 27, 48, 114] (WriteResult.wrote 4), Syscall.usleep 500000,
          Syscall.write [27, 91, 50, 74] (WriteResult.failed EAGAIN),
          Syscall.usleep 500000] :=
  (startup_sequence defaults 0 COLOUR_MOD 100 3 (WriteResult.wrote 4)
    (WriteResult.failed EAGAIN) [WriteResult.wrote 11] (by decide)).1

/-- C15: with the window `(-2.5, 1.0, -1.0, 1.0)`, `maxiter = 100` and the Scaled
policy, cell `(0,0)` is iterated with `c = (-2.5, -1.0)`, its escape count is 1,
the Scaled index is 0 and the symbol `'1'`; the first `plot_point` call of the
pass is `('1', 0, 0)`, its frame is the 11 bytes `ESC [ 3 1 m ESC [ 0 ; 0 X`, and
the first system call of the pass asks the device for these 11 bytes. -/
theorem origin_cell_end_to_end (rs : List WriteResult) :
    loop_point defaults 0 0 = (-5 / 2, -1)
      ∧ escape_loop (loop_point defaults 0 0).1 (loop_point defaults 0 0).2 100 0 0 0 = 1
      ∧ pick_index COLOUR_SCALED 100 1 0 0 = Except.ok 0
      ∧ pick_colour COLOUR_SCALED 100 1 0 0 = Except.ok 49
      ∧ text_palette[0]? = some 49
      ∧ (mandelbrot defaults 100 COLOUR_SCALED 0 rs).render.calls.head? = some (49, 0, 0)
      ∧ (stage 49 0 0).1.take 11 = [27, 91, 51, 49, 109, 27, 91, 48, 59, 48, 88]
      ∧ (stage 49 0 0).2 = 11
      ∧ (∀ (r : WriteResult) (rs' : List WriteResult),
          (mandelbrot defaults 100 COLOUR_SCALED 0 (r :: rs')).render.trace.head?
            = some (Event.write 0 11 r)) := by
  have hpt : loop_point defaults 0 0 = (-5 / 2, -1) := rfl
  have hesc : escape_loop (-5 / 2) (-1) 100 0 0 0 = 1 :=
    escape_loop_outside (-5 / 2) (-1) 100 (by norm_num) (by norm_num)
  have hidx : pick_index COLOUR_SCALED 100 1 0 0 = Except.ok 0 := by
    have hs := pick_index_scaled_lt 100 1 0 0 (by decide)
    rw [hs.1]
    congr 1
    rw [Int.floor_eq_iff]
    norm_num
  have hcol : pick_colour COLOUR_SCALED 100 1 0 0 = Except.ok 49 := by
    simp only [pick_colour, hidx]
    exact (palette_at_ok 0 (by decide) (by decide)).1
  have hcol' : pick_colour COLOUR_SCALED 100
      (escape_loop defaults.x_left defaults.y_bottom 100 0 0 0) 0 0 = Except.ok 49 := by
    have he : escape_loop defaults.x_left defaults.y_bottom 100 0 0 0 = 1 := hesc
    rw [he]
    exact hcol
  have hstage := stage_eq 49 0 0 (by decide) (by decide) (by decide)
  have hframe := frame_origin
  have hlen : (frame 49 0 0).length = 11 := by rw [hframe]; rfl
  have hrow : ∀ rs0 : List WriteResult, _ := fun rs0 =>
    rows_loop_first defaults 100 COLOUR_SCALED
      ((defaults.y_top - defaults.y_bottom) / (ROWS : ℚ)) defaults.x_left 0 0
      defaults.y_bottom rs0 49 (by decide) hcol'
  have hcols : ∀ rs0 : List WriteResult, _ := fun rs0 =>
    cols_loop_first defaults 100 COLOUR_SCALED
      ((defaults.x_right - defaults.x_left) / (COLS : ℚ))
      ((defaults.y_top - defaults.y_bottom) / (ROWS : ℚ)) 0 defaults.x_left rs0
      (49, ((0 : Nat) : Int), ((0 : Nat) : Int)) (by decide) (hrow rs0).1
  refine ⟨hpt, ?_, hidx, hcol, rfl, ?_, ?_, ?_, ?_⟩
  · rw [hpt]
    exact hesc
  · rw [mandelbrot_rendering]
    exact (hcols rs).1
  · rw [hstage, ← hframe]
    exact List.take_left' hlen
  · rw [hstage, hlen]
    rfl
  · intro r rs'
    obtain ⟨t1, ht1⟩ := (hcols (r :: rs')).2
    obtain ⟨t2, ht2⟩ := (hrow (r :: rs')).2
    have hfirst := plot_point_first_write defaults.usleep_time 49 0 0 r rs'
      (by decide) (by decide) (by decide)
    rw [hlen] at hfirst
    rw [mandelbrot_rendering, ht1, ht2, List.append_assoc, List.head?_append]
    have hcast : (plot_point defaults.usleep_time 49 ((0 : Nat) : Int) ((0 : Nat) : Int)
        (r :: rs')).trace.head? = some (Event.write 0 11 r) := hfirst
    rw [hcast]
    rfl


/-- C16 (arithmetic exact): with the window `(-2.5, 1.0, -1.0, 1.0)` the loop
variables of cell `(160,120)` are `c = (-0.75, 0)`; no point of its orbit reaches
`|z|^2 ≥ 4`; hence for every `maxiter ≥ 1` the escape count equals `maxiter`, the
Scaled policy picks the background symbol `'0'`, and in a pass whose frames are all
delivered the call for that cell (number `160 * 240 + 120`) is `('0', 160, 120)`
with the frame `ESC [ 3 0 m ESC [ 1 6 0 ; 1 2 0 X`. -/
theorem centre_cell_end_to_end (maxiter : Int) (resp : Nat → Nat → List WriteResult)
    (hm : 1 ≤ maxiter)
    (hcov : ∀ (c : Nat) (i j : Nat), i < COLS → j < ROWS →
      covers (frame c (i : Int) (j : Int)).length (resp i j)) :
    loop_point defaults 160 120 = (-3 / 4, 0)
      ∧ (∀ k : Nat, normSq (orbit (-3 / 4) 0 k) < 4)
      ∧ ((escape_loop (-3 / 4) 0 maxiter 0 0 0 : Nat) : Int) = maxiter
      ∧ pick_colour COLOUR_SCALED maxiter (escape_loop (-3 / 4) 0 maxiter 0 0 0) 160 120
          = Except.ok 48
      ∧ (mandelbrot defaults maxiter COLOUR_SCALED 0 (pass_responses resp)).render.calls[
          160 * 240 + 120]? = some (48, 160, 120)
      ∧ (stage 48 160 120).1.take 15
          = [27, 91, 51, 48, 109, 27, 91, 49, 54, 48, 59, 49, 50, 48, 88]
      ∧ (stage 48 160 120).2 = 15 := by
  have hpt : loop_point defaults 160 120 = (-3 / 4, 0) := by
    rw [loop_point_eq_cell_point]
    simp only [cell_point, defaults]
    norm_num
  have hesc := escape_loop_bounded_orbit (-3 / 4) 0 maxiter (by omega) orbit_centre_normSq
  have hcol := pick_colour_scaled_capped maxiter (escape_loop (-3 / 4) 0 maxiter 0 0 0)
    160 120 (by omega)
  have hstage := stage_eq 48 160 120 (by decide) (by decide) (by decide)
  have hframe := frame_centre
  have hlen : (frame 48 160 120).length = 15 := by rw [hframe]; rfl
  refine ⟨hpt, orbit_centre_normSq, hesc, hcol, ?_, ?_, ?_⟩
  · have hcall := mandelbrot_call_at defaults maxiter COLOUR_SCALED resp (Or.inl rfl) hcov
      160 120 (by decide) (by decide)
    rw [hpt] at hcall
    rw [plotted_of_ok COLOUR_SCALED maxiter (-3 / 4) 0 160 120 48 hcol] at hcall
    exact hcall
  · rw [hstage, ← hframe]
    exact List.take_left' hlen
  · rw [hstage, hlen]
    rfl

theorem centre_cell_end_to_end_witness :
    (mandelbrot defaults 100 COLOUR_SCALED 0
        (pass_responses fun i j =>
          [WriteResult.wrote (frame 0 (i : Int) (j : Int)).length])).render.calls[
        160 * 240 + 120]? = some (48, 160, 120) :=
  (centre_cell_end_to_end 100
    (fun i j => [WriteResult.wrote (frame 0 (i : Int) (j : Int)).length])
    (by decide)
    (fun c i j _ _ =>
      ⟨fun r hr => Or.inr ⟨_, List.mem_singleton.mp hr⟩,
        by simp [accepted, frame],
        fun k hk => by
          have hk0 : k = 0 := by simpa using hk
          rw [hk0]
          simp [accepted, frame]⟩)).2.2.2.2.1

/-- C17: under the Test policy the symbol for cell `(i, j)` is
`text_palette[(i + j) mod 7]`, whatever `maxiter`, the window and the escape count
are, and it is never the background symbol `'0'`; so in passes whose frames are
all delivered the calls are the cells in order with these symbols, and two passes
with different `maxiter` and different globals (window included) make the same
calls. -/
theorem test_policy_ignores_fractal (g g' : Globals) (maxiter maxiter' : Int)
    (resp : Nat → Nat → List WriteResult)
    (hcov : ∀ (c : Nat) (i j : Nat), i < COLS → j < ROWS →
      covers (frame c (i : Int) (j : Int)).length (resp i j)) :
    (∀ (iter i j : Nat),
        pick_colour COLOUR_TEST maxiter iter i j
            = Except.ok (text_palette.getD ((i + j) % 7) 0)
          ∧ text_palette[(i + j) % 7]? = some (text_palette.getD ((i + j) % 7) 0)
          ∧ text_palette.getD ((i + j) % 7) 0 ≠ 48)
      ∧ (mandelbrot g maxiter COLOUR_TEST 0 (pass_responses resp)).render.calls
          = ((List.range COLS).flatMap fun (i : Nat) =>
              (List.range ROWS).map fun (j : Nat) =>
                (text_palette.getD ((i + j) % 7) 0, (i : Int), (j : Int)))
      ∧ (mandelbrot g' maxiter' COLOUR_TEST 0 (pass_responses resp)).render.calls
          = (mandelbrot g maxiter COLOUR_TEST 0 (pass_responses resp)).render.calls
      ∧ (∀ call ∈ (mandelbrot g maxiter COLOUR_TEST 0 (pass_responses resp)).render.calls,
          call.1 ≠ 48) := by
  have hplot : ∀ (m : Int) (x0 y0 : ℚ) (i j : Nat),
      plotted COLOUR_TEST m x0 y0 i j = text_palette.getD ((i + j) % 7) 0 := fun m x0 y0 i j =>
    plotted_of_ok COLOUR_TEST m x0 y0 i j _ (pick_colour_test m _ i j).1
  have hcalls : ∀ (h : Globals) (m : Int),
      (mandelbrot h m COLOUR_TEST 0 (pass_responses resp)).render.calls
        = ((List.range COLS).flatMap fun (i : Nat) =>
            (List.range ROWS).map fun (j : Nat) =>
              (text_palette.getD ((i + j) % 7) 0, (i : Int), (j : Int))) := by
    intro h m
    rw [mandelbrot_calls h m COLOUR_TEST resp (Or.inr (Or.inr rfl)) hcov]
    simp only [hplot]
  refine ⟨?_, hcalls g maxiter, ?_, ?_⟩
  · intro iter i j
    have h := pick_colour_test maxiter iter i j
    exact ⟨h.1, h.2.2, h.2.1⟩
  · rw [hcalls g' maxiter', hcalls g maxiter]
  · intro call hcall
    rw [hcalls g maxiter] at hcall
    simp only [List.mem_flatMap, List.mem_map, List.mem_range] at hcall
    obtain ⟨i, _, j, _, hij⟩ := hcall
    rw [← hij]
    exact (pick_colour_test maxiter 0 i j).2.1

theorem test_policy_ignores_fractal_witness :
    (mandelbrot defaults 7 COLOUR_TEST 0
        (pass_responses fun i j =>
          [WriteResult.wrote (frame 0 (i : Int) (j : Int)).length])).render.calls
      = (mandelbrot defaults 100 COLOUR_TEST 0
        (pass_responses fun i j =>
          [WriteResult.wrote (frame 0 (i : Int) (j : Int)).length])).render.calls :=
  (test_policy_ignores_fractal defaults defaults 100 7
    (fun i j => [WriteResult.wrote (frame 0 (i : Int) (j : Int)).length])
    (fun c i j _ _ =>
      ⟨fun r hr => Or.inr ⟨_, List.mem_singleton.mp hr⟩,
        by simp [accepted, frame],
        fun k hk => by
          have hk0 : k = 0 := by simpa using hk
          rw [hk0]
          simp [accepted, frame]⟩)).2.2.1

/-- C18 (arithmetic exact): for every cell `(i, j)` with `i < 320`, `j < 240` the
values of the accumulating loop variables `(x0, y0)` equal
`(left + i * dx, bottom + j * dy)` with `dx = (right - left) / 320` and
`dy = (top - bottom) / 240`; for a window with `left ≠ right` and `bottom ≠ top`,
in particular for the window of the source, the inverse affine map gives back
`(i, j)`; and in a pass whose frames are all delivered the call for cell `(i, j)`
carries the colour computed from exactly these values. -/
theorem pixel_mapping_affine_invertible (g : Globals) (i j : Nat)
    (hi : i < 320) (hj : j < 240) :
    loop_point g i j
        = (g.x_left + (i : ℚ) * ((g.x_right - g.x_left) / 320),
            g.y_bottom + (j : ℚ) * ((g.y_top - g.y_bottom) / 240))
      ∧ loop_point g i j = cell_point g i j
      ∧ (g.x_left ≠ g.x_right → g.y_bottom ≠ g.y_top →
          cell_of_point g (loop_point g i j) = ((i : ℚ), (j : ℚ)))
      ∧ cell_of_point defaults (loop_point defaults i j) = ((i : ℚ), (j : ℚ))
      ∧ (∀ (maxiter painter : Int) (resp : Nat → Nat → List WriteResult),
          (painter = COLOUR_SCALED ∨ painter = COLOUR_MOD ∨ painter = COLOUR_TEST) →
          (∀ (c : Nat) (i j : Nat), i < COLS → j < ROWS →
            covers (frame c (i : Int) (j : Int)).length (resp i j)) →
          (mandelbrot g maxiter painter 0 (pass_responses resp)).render.calls[
              i * 240 + j]?
            = some (plotted painter maxiter (loop_point g i j).1 (loop_point g i j).2 i j,
                (i : Int), (j : Int))) := by
  refine ⟨loop_point_eq_cell_point g i j, loop_point_eq_cell_point g i j, ?_, ?_, ?_⟩
  · intro hx hy
    rw [loop_point_eq_cell_point]
    exact cell_of_cell_point g i j hx hy
  · rw [loop_point_eq_cell_point]
    exact cell_of_cell_point defaults i j (by simp only [defaults]; norm_num)
      (by simp only [defaults]; norm_num)
  · intro maxiter painter resp hp hcov
    exact mandelbrot_call_at g maxiter painter resp hp hcov i j hi hj

theorem pixel_mapping_affine_invertible_witness :
    cell_of_point defaults (loop_point defaults 160 120) = (((160 : Nat) : ℚ), ((120 : Nat) : ℚ)) :=
  (pixel_mapping_affine_invertible defaults 160 120 (by decide) (by decide)).2.2.2.1

/-- C19 fails on the code: the arrays are declared `[ROWS][COLS]` but indexed
`[i][j]` with `i < COLS`, `j < ROWS`.  The outer rounds `i < 240` stay inside the
arrays; in round `i = 240` the assignment `real_val[240][0] = 0.0` is outside the
first dimension, so with checked indexing every run with `iteratively ≠ 0` stops
there (nothing has been sent). -/
theorem iterative_zeroing_leaves_first_dimension (g : Globals) (maxiter painter : Int)
    (rs : List WriteResult) :
    Store.set g.real_val 240 0 0 = none
      ∧ (∀ (i : Nat) (rv iv : Store), i < 240 → (zero_rows i 0 rv iv).1 = Outcome.returned)
      ∧ (∀ (rv iv : Store), (zero_rows 240 0 rv iv).1 = Outcome.fault)
      ∧ (mandelbrot g maxiter painter 1 rs).render = ⟨Outcome.fault, [], [], [], rs⟩ := by
  refine ⟨by simp [Store.set, ROWS], ?_, ?_, ?_⟩
  · intro i rv iv hi
    exact zero_rows_returns i hi ROWS 0 (Nat.zero_add ROWS) rv iv
  · intro rv iv
    exact zero_rows_faults 240 (by decide) rv iv
  · exact mandelbrot_iterative_render g maxiter painter 1 rs (by decide) Outcome.fault
      (zero_cols_faults ROWS 0 (Nat.zero_add ROWS) g.real_val g.imag_val)

/-- C20 (Scaled policy, arithmetic exact): for `maxiter ≥ 1` and counts
`a ≤ b ≤ maxiter` the index chosen for `a` is at most the index chosen for `b`,
and every index is at most the in-set index 7, which is the one chosen for
`maxiter`. -/
theorem scaled_index_monotone (maxiter : Int) (a b i j : Nat)
    (hm : 1 ≤ maxiter) (hab : a ≤ b) (hb : (b : Int) ≤ maxiter) :
    ∃ ia ib : Int, pick_index COLOUR_SCALED maxiter a i j = Except.ok ia
      ∧ pick_index COLOUR_SCALED maxiter b i j = Except.ok ib
      ∧ ia ≤ ib ∧ ib ≤ 7
      ∧ pick_index COLOUR_SCALED maxiter maxiter.toNat i j = Except.ok 7 := by
  have hcap : pick_index COLOUR_SCALED maxiter maxiter.toNat i j = Except.ok 7 :=
    pick_index_scaled_ge maxiter maxiter.toNat i j (by omega)
  by_cases hbcap : (b : Int) < maxiter
  · have hsa := pick_index_scaled_lt maxiter a i j (by omega)
    have hsb := pick_index_scaled_lt maxiter b i j hbcap
    refine ⟨_, _, hsa.1, hsb.1, ?_, by omega, hcap⟩
    apply Int.floor_le_floor
    have hmq : (0 : ℚ) < (maxiter : ℚ) := by
      have : (0 : Int) < maxiter := by omega
      exact_mod_cast this
    have habq : (a : ℚ) ≤ (b : ℚ) := by exact_mod_cast hab
    have : (a : ℚ) * 6 / (maxiter : ℚ) ≤ (b : ℚ) * 6 / (maxiter : ℚ) :=
      div_le_div_of_nonneg_right (by linarith) (le_of_lt hmq)
    linarith
  · obtain ⟨ia, hia, _, hia7⟩ := pick_index_recognised COLOUR_SCALED maxiter a i j (Or.inl rfl)
    exact ⟨ia, 7, hia, pick_index_scaled_ge maxiter b i j (by omega), hia7, by omega, hcap⟩

theorem scaled_index_monotone_witness :
    ∃ ia ib : Int, pick_index COLOUR_SCALED 100 3 0 0 = Except.ok ia
      ∧ pick_index COLOUR_SCALED 100 50 0 0 = Except.ok ib
      ∧ ia ≤ ib ∧ ib ≤ 7
      ∧ pick_index COLOUR_SCALED 100 (100 : Int).toNat 0 0 = Except.ok 7 :=
  scaled_index_monotone 100 3 50 0 0 (by decide) (by decide) (by decide)

end OdroidShow
